import Mathlib

/-!
Formal model of the download orchestration engine of `youtube-downloader-pro`.

The definitions below are shallow embeddings of the Python source:

* `app/services/download_service.py` — the queue-backed `DownloadService`
  (`_build_download_command`, `_parse_progress`, `_extract_speed`,
  `_execute_download`, `_update_download_status`, `get_queue_status`,
  `queue_download`);
* `youtube_downloader_pro.py` — the in-process `AdvancedYouTubeDownloader`
  (`build_command`, `download_with_progress`, `_process_queue` with its
  `ThreadPoolExecutor` worker pool);
* `app/api/downloads.py` — the `retry_download` endpoint;
* `app/models/downloads.py` — the `Download` record and `DownloadStatus` enum.

Machine floats of the source are modelled as exact rationals: every numeric
literal the claims exercise is a short decimal, and the binary unit
multipliers (1024, 1024^2, 1024^3) are powers of two, so the modelled value
coincides with the value computed by the Python code.
-/

/-- Status enumeration of `app/models/downloads.py` (`DownloadStatus`). -/
inductive DownloadStatus
  | pending
  | queuedSt
  | downloading
  | processing
  | completed
  | failed
  | cancelled
  | paused
deriving DecidableEq, Repr

/-- One write to the ephemeral status store: the `update_data` dict built by
`DownloadService._update_download_status` (status, optional progress,
optional error message).  Timestamps are not modelled. -/
structure StatusUpdate where
  status : String
  progress : Option ℚ
  errorMessage : Option String
deriving DecidableEq, Repr

/-! ### Python string helpers (character-list level, kernel-computable) -/

/-- Maximal leading run of decimal digits of a character list, together with
the remainder (the behaviour of a greedy `\d*`). -/
def takeDigits : List Char → List Char × List Char
  | [] => ([], [])
  | c :: cs =>
    if c.isDigit then
      let p := takeDigits cs
      (c :: p.1, p.2)
    else ([], c :: cs)

/-- Numeric value of a list of decimal digit characters. -/
def digitsVal (l : List Char) : ℕ :=
  l.foldl (fun a c => 10 * a + (c.toNat - 48)) 0

/-- Exact value of the decimal literal with integer digits `ip` and
fractional digits `fp`. -/
def decimalVal (ip fp : List Char) : ℚ :=
  (digitsVal ip : ℚ) + (digitsVal fp : ℚ) / (10 : ℚ) ^ fp.length

/-- Model of Python `float(s)` on an unsigned plain decimal literal:
digits with an optional decimal point, at least one digit overall
(`"12"`, `"12."`, `"12.5"`, `".5"`).  Exponent forms, `inf`/`nan` and
underscore separators are outside the fragment exercised by this code's
output lines and are not modelled. -/
def pyFloatUnsigned (cs : List Char) : Option ℚ :=
  let p1 := takeDigits cs
  match p1.2 with
  | [] => if p1.1 = [] then none else some (digitsVal p1.1 : ℚ)
  | '.' :: rest2 =>
    let p2 := takeDigits rest2
    if p2.2 = [] then
      if p1.1 = [] ∧ p2.1 = [] then none
      else some (decimalVal p1.1 p2.1)
    else none
  | _ :: _ => none

/-- Model of Python `float(s)`: optional sign followed by an unsigned plain
decimal literal. -/
def pyFloat (cs : List Char) : Option ℚ :=
  match cs with
  | '+' :: rest => pyFloatUnsigned rest
  | '-' :: rest => (pyFloatUnsigned rest).map Neg.neg
  | _ => pyFloatUnsigned cs

/-- Model of Python `line.split()`: split on runs of whitespace, dropping
empty words.  `cur` accumulates the current word in reverse. -/
def pySplitChars (cur : List Char) : List Char → List (List Char)
  | [] => if cur = [] then [] else [cur.reverse]
  | c :: cs =>
    if c.isWhitespace then
      if cur = [] then pySplitChars [] cs
      else cur.reverse :: pySplitChars [] cs
    else pySplitChars (c :: cur) cs

/-- Whitespace-delimited words of a line, as in Python `line.split()`. -/
def pySplit (line : String) : List (List Char) :=
  pySplitChars [] line.data

/-- Boolean test that `pat` occurs as a contiguous sublist of `l`. -/
def isInfixChars (pat : List Char) : List Char → Bool
  | [] => pat = []
  | c :: cs => List.isPrefixOf pat (c :: cs) || isInfixChars pat cs

/-- Model of the Python containment test `pat in line`. -/
def pyContains (line pat : String) : Bool :=
  isInfixChars pat.data line.data

/-! ### Progress parser (`DownloadService._parse_progress` and
`DownloadService._extract_speed`) -/

/-- One word of a `yt-dlp` output line, interpreted by the percentage loop of
`_parse_progress`: if the word ends with `%`, every `%` character is removed
(Python `part.replace`) and the remainder is parsed as a float. -/
def percentToken (w : List Char) : Option ℚ :=
  if w.getLast? = some '%' then pyFloat (w.filter (fun c => c ≠ '%')) else none

/-- The `for part in parts` loop of `_parse_progress`: the first word ending
in `%` whose remainder parses as a float wins (`break`); words that fail to
parse are skipped (`except ValueError: pass`). -/
def findPercent : List (List Char) → Option ℚ
  | [] => none
  | w :: ws =>
    match percentToken w with
    | some v => some v
    | none => findPercent ws

/-- The unit alternation `(K|M|G)iB/s` of the speed regex, with its binary
multiplier. -/
def matchUnit (cs : List Char) : Option ℚ :=
  if List.isPrefixOf "KiB/s".data cs then some 1024
  else if List.isPrefixOf "MiB/s".data cs then some (1024 ^ 2)
  else if List.isPrefixOf "GiB/s".data cs then some (1024 ^ 3)
  else none

/-- Attempt to match the speed regex `(\d+\.?\d*)(K|M|G)iB/s` at the head of
`cs`, exactly as Python `re` does at one search position: a greedy nonempty
digit run, an optional dot with a greedy (possibly empty) digit run, then the
unit.  Shrinking a greedy run can never rescue a failed unit match here
(units start with a letter), so maximal munch is faithful. -/
def tryTokenAt (cs : List Char) : Option ℚ :=
  let p1 := takeDigits cs
  if p1.1 = [] then none
  else
    match p1.2 with
    | [] => none
    | c :: rest2 =>
      if c = '.' then
        let p2 := takeDigits rest2
        match matchUnit p2.2 with
        | some m => some (decimalVal p1.1 p2.1 * m)
        | none => none
      else
        match matchUnit (c :: rest2) with
        | some m => some ((digitsVal p1.1 : ℚ) * m)
        | none => none

/-- Leftmost-match search of the speed regex, as `re.search` does: try every
start position from the left. -/
def searchSpeed : List Char → Option ℚ
  | [] => none
  | c :: cs =>
    match tryTokenAt (c :: cs) with
    | some v => some v
    | none => searchSpeed cs

/-- Model of `DownloadService._extract_speed`: leftmost
`(\d+\.?\d*)(K|M|G)iB/s` token of the line, normalized to bytes per second
with binary multipliers; `none` when no token occurs. -/
def extractSpeed (line : String) : Option ℚ :=
  searchSpeed line.data

/-- An event published while streaming one output line: a progress
percentage written to the status key, or a speed sample written to the
speed key. -/
inductive ProgressEvent
  | progressUpd (p : ℚ)
  | speedUpd (v : ℚ)
deriving DecidableEq, Repr

/-- Model of `DownloadService._parse_progress` on one output line: the list
of events it publishes.  The percentage branch fires only when the line
contains both `"[download]"` and `"%"`; the speed branch only when the line
contains `"[download]"` and `"/s"` (or `"iB/s"`). -/
def parseProgress (line : String) : List ProgressEvent :=
  (if pyContains line "[download]" && pyContains line "%" then
    match findPercent (pySplit line) with
    | some p => [ProgressEvent.progressUpd p]
    | none => []
  else []) ++
  (if pyContains line "[download]" && (pyContains line "/s" || pyContains line "iB/s") then
    match extractSpeed line with
    | some v => [ProgressEvent.speedUpd v]
    | none => []
  else [])

/-! ### Execution outcome handling (`DownloadService._execute_download`,
`AdvancedYouTubeDownloader.download_with_progress`) -/

/-- How one supervised run ends: the subprocess exits with a code, or the
caller cancels the task mid-run. -/
inductive RunOutcome
  | exited (code : ℤ)
  | cancelledByCaller
deriving DecidableEq, Repr

/-- The writes one line contributes to the status key: each parsed
percentage is forwarded through `_update_download_progress`, which publishes
status `"downloading"` with that progress.  Speed samples go to the separate
speed key and do not touch the status key. -/
def lineStatusWrites (line : String) : List StatusUpdate :=
  (parseProgress line).filterMap fun e =>
    match e with
    | ProgressEvent.progressUpd p => some ⟨"downloading", some p, none⟩
    | ProgressEvent.speedUpd _ => none

/-- The final status write of `_execute_download`: exit code 0 publishes
`completed` with progress 100; a non-zero exit publishes `failed` with
progress 0 and no error message; cancellation publishes `cancelled` with
progress 0. -/
def finalStatusWrite : RunOutcome → StatusUpdate
  | RunOutcome.exited code =>
    if code = 0 then ⟨"completed", some 100, none⟩ else ⟨"failed", some 0, none⟩
  | RunOutcome.cancelledByCaller => ⟨"cancelled", some 0, none⟩

/-- The full sequence of status-key writes of one `_execute_download` run:
the per-line progress writes for the lines streamed before the end of the
run, then the final write. -/
def executeStatusWrites (lines : List String) (outcome : RunOutcome) : List StatusUpdate :=
  (lines.map lineStatusWrites).flatten ++ [finalStatusWrite outcome]

/-- Progress values published with status `downloading` during one run, in
publication order. -/
def publishedDownloadingProgress (writes : List StatusUpdate) : List ℚ :=
  (writes.filter fun u => u.status = "downloading").filterMap (fun u => u.progress)

/-- Python `output_lines[-10:]`. -/
def lastTen (l : List String) : List String :=
  l.drop (l.length - 10)

/-- The terminal database update of
`AdvancedYouTubeDownloader.download_with_progress`: exit code 0 records
`completed` with progress 100; a non-zero exit records `failed` with the
last ten output lines joined as the error message (the progress column is
not touched on failure). -/
def downloadFinalUpdate (outputLines : List String) (returncode : ℤ) : StatusUpdate :=
  if returncode = 0 then ⟨"completed", some 100, none⟩
  else ⟨"failed", none, some (String.intercalate "\n" (lastTen outputLines))⟩

/-! ### Retry endpoint (`app/api/downloads.py`, `retry_download`) -/

/-- The slice of the `Download` record that the retry endpoint reads and
writes. -/
structure DownloadRecord where
  status : DownloadStatus
  progress : ℚ
  errorMessage : Option String
  retryCount : ℕ
  maxRetries : ℕ
deriving DecidableEq, Repr

/-- Model of the `retry_download` endpoint on a found record: statuses other
than `failed`/`cancelled` are rejected with HTTP 400 and the record is left
unchanged; otherwise the record is reset to `pending` with progress 0,
cleared error, and `retry_count` incremented.  The endpoint performs no
comparison of `retry_count` against `max_retries`. -/
def retryDownload (d : DownloadRecord) : Except ℕ DownloadRecord :=
  if d.status = DownloadStatus.failed ∨ d.status = DownloadStatus.cancelled then
    Except.ok { d with
      status := DownloadStatus.pending
      progress := 0
      errorMessage := none
      retryCount := d.retryCount + 1 }
  else Except.error 400

/-! ### Command builders (`DownloadService._build_download_command` and
`AdvancedYouTubeDownloader.build_command`) -/

/-- Python truthiness of an optional integer field (`if config.get("fps")`):
`None` and `0` are falsy. -/
def optNatTruthy : Option ℕ → Bool
  | some n => n ≠ 0
  | none => false

/-- Python truthiness of an optional string field: `None` and `""` are
falsy. -/
def optStrTruthy : Option String → Bool
  | some s => s ≠ ""
  | none => false

/-- The download configuration dict consumed by
`DownloadService._build_download_command`, with the defaults its `get` calls
supply. -/
structure DownloadConfig where
  url : String
  outputDirectory : String := "downloads"
  quality : String := "1080"
  fps : Option ℕ := none
  format : String := "mp4"
  audioOnly : Bool := false
  extractAudio : Bool := false
  audioFormat : String := "mp3"
  includeSubtitles : Bool := false
  subtitleLanguages : List String := ["en"]
  autoSubtitles : Bool := false
  includeThumbnail : Bool := false
  includeMetadata : Bool := true
  startTime : Option String := none
  endTime : Option String := none
  playlistStart : Option ℕ := none
  playlistEnd : Option ℕ := none
deriving DecidableEq, Repr

/-- The `fps_filter` string: `f"[fps<={fps}]" if fps else ""`. -/
def fpsFilterStr (fps : Option ℕ) : String :=
  match fps with
  | some f => if f ≠ 0 then "[fps<=" ++ toString f ++ "]" else ""
  | none => ""

/-- The `format_str` selector built for non-audio-only downloads:
`bestvideo[height<={quality}]{fps_filter}+bestaudio/best[height<={quality}]`
(braces here denote interpolation of the configured values). -/
def formatSelector (quality : String) (fps : Option ℕ) : String :=
  "bestvideo[height<=" ++ quality ++ "]" ++ fpsFilterStr fps ++
    "+bestaudio/best[height<=" ++ quality ++ "]"

/-- The `-f` arguments of `_build_download_command`. -/
def svcFormatArgs (cfg : DownloadConfig) : List String :=
  if cfg.audioOnly then ["-f", "bestaudio"]
  else ["-f", formatSelector cfg.quality cfg.fps]

/-- Arguments contributed by a truthiness-guarded optional integer field,
as in `if config.get("playlist_start"): cmd.extend([flag, str(value)])`. -/
def optNatFlagArgs (flag : String) : Option ℕ → List String
  | some n => if n ≠ 0 then [flag, toString n] else []
  | none => []

/-- The time-range arguments of `_build_download_command` (both `end_time`
branches of the source emit the same arguments). -/
def svcTimeArgs (cfg : DownloadConfig) : List String :=
  if optStrTruthy cfg.startTime || optStrTruthy cfg.endTime then
    ["--external-downloader", "ffmpeg"] ++
    (match cfg.startTime with
     | some s => if s ≠ "" then ["--external-downloader-args", "-ss " ++ s] else []
     | none => []) ++
    (match cfg.endTime with
     | some e => if e ≠ "" then ["--external-downloader-args", "-to " ++ e] else []
     | none => [])
  else []

/-- The options appended unconditionally at the end of both builders. -/
def fixedTrailingArgs : List String :=
  ["--embed-chapters", "--ignore-errors", "--no-warnings", "--progress", "--newline"]

/-- The `--extract-audio` block of `_build_download_command`. -/
def svcExtractAudioArgs (cfg : DownloadConfig) : List String :=
  if cfg.extractAudio then ["--extract-audio", "--audio-format", cfg.audioFormat] else []

/-- The `--remux-video` block of `_build_download_command`: only when
neither audio-only nor extracting audio. -/
def svcRemuxArgs (cfg : DownloadConfig) : List String :=
  if !cfg.audioOnly && !cfg.extractAudio then ["--remux-video", cfg.format] else []

/-- The subtitle block of `_build_download_command`. -/
def svcSubtitleArgs (cfg : DownloadConfig) : List String :=
  if cfg.includeSubtitles then
    "--write-subs" ::
      (if cfg.subtitleLanguages ≠ [] then
        ["--sub-langs", String.intercalate "," cfg.subtitleLanguages]
      else [])
  else []

/-- Model of `DownloadService._build_download_command` (the directory
creation side effect is not modelled; the string `%(title)s.%(ext)s` is the
literal output template). -/
def buildDownloadCommand (cfg : DownloadConfig) : List String :=
  ["yt-dlp"] ++
  ["-o", cfg.outputDirectory ++ "/" ++ "%(title)s.%(ext)s"] ++
  svcFormatArgs cfg ++
  svcExtractAudioArgs cfg ++
  svcRemuxArgs cfg ++
  svcSubtitleArgs cfg ++
  (if cfg.autoSubtitles then ["--write-auto-subs"] else []) ++
  (if cfg.includeThumbnail then ["--write-thumbnail"] else []) ++
  (if cfg.includeMetadata then ["--write-info-json", "--write-description"] else []) ++
  svcTimeArgs cfg ++
  optNatFlagArgs "--playlist-start" cfg.playlistStart ++
  optNatFlagArgs "--playlist-end" cfg.playlistEnd ++
  fixedTrailingArgs ++
  [cfg.url]

/-- The `DownloadJob` dataclass of `youtube_downloader_pro.py` (run-state
fields that `build_command` does not read are omitted).  The `speed` float
is carried as its already-rendered decimal text (`speedRepr`), since only
its interpolation into `--limit-rate` matters here; `None` when unset. -/
structure DownloadJob where
  url : String
  outputDir : String := "downloads"
  resolution : String := "1080"
  fps : Option ℕ := none
  format : String := "mp4"
  audioOnly : Bool := false
  extractAudio : Bool := false
  audioFormat : String := "mp3"
  subtitles : Bool := false
  autoSubtitles : Bool := false
  subtitleLangs : List String := ["en"]
  thumbnail : Bool := false
  metadata : Bool := true
  startTime : Option String := none
  endTime : Option String := none
  speedRepr : Option String := none
  playlistStart : Option ℕ := none
  playlistEnd : Option ℕ := none
deriving DecidableEq, Repr

/-- The `-f` arguments of `build_command` (identical selector logic to the
service builder, reading `resolution` instead of `quality`). -/
def jobFormatArgs (job : DownloadJob) : List String :=
  if job.audioOnly then ["-f", "bestaudio"]
  else ["-f", formatSelector job.resolution job.fps]

/-- The time-range arguments of `build_command`: the start branch emits the
external-downloader declaration with the seek argument; the end branch
declares the external downloader only when no start was given. -/
def jobTimeArgs (job : DownloadJob) : List String :=
  (match job.startTime with
   | some s =>
     if s ≠ "" then
       ["--external-downloader", "ffmpeg", "--external-downloader-args", "-ss " ++ s]
     else []
   | none => []) ++
  (match job.endTime with
   | some e =>
     if e ≠ "" then
       (if optStrTruthy job.startTime then [] else ["--external-downloader", "ffmpeg"]) ++
       ["--external-downloader-args", "-to " ++ e]
     else []
   | none => [])

/-- The `--extract-audio` block of `build_command`. -/
def jobExtractAudioArgs (job : DownloadJob) : List String :=
  if job.extractAudio then ["--extract-audio", "--audio-format", job.audioFormat] else []

/-- The `--remux-video` block of `build_command`. -/
def jobRemuxArgs (job : DownloadJob) : List String :=
  if !job.audioOnly && !job.extractAudio then ["--remux-video", job.format] else []

/-- The subtitle block of `build_command`. -/
def jobSubtitleArgs (job : DownloadJob) : List String :=
  if job.subtitles then
    "--write-subs" ::
      (if job.subtitleLangs ≠ [] then
        ["--sub-langs", String.intercalate "," job.subtitleLangs]
      else [])
  else []

/-- The speed-limit block of `build_command`
(`--limit-rate {speed}M`, truthiness-guarded). -/
def jobSpeedArgs (job : DownloadJob) : List String :=
  match job.speedRepr with
  | some s => if s ≠ "" then ["--limit-rate", s ++ "M"] else []
  | none => []

/-- Model of `AdvancedYouTubeDownloader.build_command`. -/
def buildCommand (job : DownloadJob) : List String :=
  ["yt-dlp"] ++
  ["-o", job.outputDir ++ "/" ++ "%(title)s.%(ext)s"] ++
  jobFormatArgs job ++
  jobExtractAudioArgs job ++
  jobRemuxArgs job ++
  jobSubtitleArgs job ++
  (if job.autoSubtitles then ["--write-auto-subs"] else []) ++
  (if job.thumbnail then ["--write-thumbnail"] else []) ++
  (if job.metadata then ["--write-info-json", "--write-description"] else []) ++
  jobTimeArgs job ++
  optNatFlagArgs "--playlist-start" job.playlistStart ++
  optNatFlagArgs "--playlist-end" job.playlistEnd ++
  jobSpeedArgs job ++
  fixedTrailingArgs ++
  [job.url]

/-! ### Cancellation path of `_execute_download`

The `asyncio.CancelledError` handler sends `process.terminate()` once and
then suspends on `await process.wait()` until the process exits; only then
is the `cancelled` snapshot published.  The handler contains no grace-period
timer and no forced kill.  The process's behaviour after the terminate
signal is abstracted as `Option ℕ`: `some k` when it exits `k` time units
after the signal, `none` when it never exits (e.g. it traps the signal). -/

/-- Whether the cancel handler's `await process.wait()` has returned by time
`t` after the terminate signal: it returns exactly when the process has
exited, and never returns for a process that never exits. -/
def cancelWaitDone (behaviour : Option ℕ) (t : ℕ) : Bool :=
  match behaviour with
  | some k => k ≤ t
  | none => false

/-- The terminal snapshot the cancel handler publishes after the wait
returns; never published when the process never exits. -/
def cancelFinalWrite (behaviour : Option ℕ) : Option StatusUpdate :=
  match behaviour with
  | some _ => some (finalStatusWrite RunOutcome.cancelledByCaller)
  | none => none

/-! ### Worker pool of `AdvancedYouTubeDownloader`

`_process_queue` moves jobs from the `queue.Queue` into a
`ThreadPoolExecutor(max_workers)`.  A submitted callable starts only when
one of the `max_workers` worker threads is free; the worker thread first
records status `downloading` (`download_with_progress`), and records the
terminal status just before it finishes.  The pool is modelled as a
transition system over job ids. -/

/-- Pointwise update of a status table. -/
def setStatus (f : ℕ → DownloadStatus) (j : ℕ) (st : DownloadStatus) : ℕ → DownloadStatus :=
  fun i => if i = j then st else f i

/-- State of the in-process downloader: all created job ids, the
`download_queue` contents, the executor's submitted-but-not-started
callables, the jobs currently held by a worker thread, and the database
status column. -/
structure PoolState where
  jobs : List ℕ
  queuedJobs : List ℕ
  submittedJobs : List ℕ
  runningJobs : List ℕ
  jobStatus : ℕ → DownloadStatus

/-- Initial pool state: no jobs. -/
def initPool : PoolState :=
  ⟨[], [], [], [], fun _ => DownloadStatus.pending⟩

/-- Transitions of the in-process downloader with `max_workers = W`:
`add_download` saves a fresh pending job and enqueues it; `_process_queue`
dequeues and submits it to the executor; a free worker thread (available
only while fewer than `W` run) starts it and records `downloading`; a
finishing worker records `completed` or `failed` and leaves the pool. -/
inductive PoolStep (W : ℕ) : PoolState → PoolState → Prop
  | addDownload (s : PoolState) (j : ℕ) (hfresh : j ∉ s.jobs) :
      PoolStep W s { s with
        jobs := s.jobs ++ [j]
        queuedJobs := s.queuedJobs ++ [j]
        jobStatus := setStatus s.jobStatus j DownloadStatus.pending }
  | dispatch (s : PoolState) (j : ℕ) (rest : List ℕ) (hq : s.queuedJobs = j :: rest) :
      PoolStep W s { s with
        queuedJobs := rest
        submittedJobs := s.submittedJobs ++ [j] }
  | startWorker (s : PoolState) (j : ℕ) (rest : List ℕ)
      (hs : s.submittedJobs = j :: rest) (hcap : s.runningJobs.length < W) :
      PoolStep W s { s with
        submittedJobs := rest
        runningJobs := s.runningJobs ++ [j]
        jobStatus := setStatus s.jobStatus j DownloadStatus.downloading }
  | finishWorker (s : PoolState) (j : ℕ) (st : DownloadStatus) (hrun : j ∈ s.runningJobs)
      (hterm : st = DownloadStatus.completed ∨ st = DownloadStatus.failed) :
      PoolStep W s { s with
        runningJobs := s.runningJobs.erase j
        jobStatus := setStatus s.jobStatus j st }

/-- Reachable states of the in-process downloader. -/
inductive PoolReach (W : ℕ) : PoolState → Prop
  | init : PoolReach W initPool
  | step (s s' : PoolState) : PoolReach W s → PoolStep W s s' → PoolReach W s'

/-- Number of jobs whose recorded status is `downloading`. -/
def downloadingCount (s : PoolState) : ℕ :=
  (s.jobs.filter fun j => decide (s.jobStatus j = DownloadStatus.downloading)).length

/-- Inductive invariant of the worker pool: job ids are unique, the three
pipeline stages are disjoint and drawn from the created jobs, a job's
status is `downloading` exactly while a worker thread holds it, and at most
`W` worker threads exist. -/
def PoolInv (W : ℕ) (s : PoolState) : Prop :=
  s.jobs.Nodup ∧
  (s.queuedJobs ++ s.submittedJobs ++ s.runningJobs).Nodup ∧
  (∀ j, j ∈ s.queuedJobs ++ s.submittedJobs ++ s.runningJobs → j ∈ s.jobs) ∧
  (∀ j, s.jobStatus j = DownloadStatus.downloading ↔ j ∈ s.runningJobs) ∧
  s.runningJobs.length ≤ W

/-! ### Queue-backed `DownloadService` as a transition system

`queue_download` only pushes the id onto the Redis list.  `process_download`
/ `_execute_download` may be invoked for any created download — no code
path compares the number of active downloads against
`settings.MAX_CONCURRENT_DOWNLOADS` before executing; the setting is read
only by `get_queue_status` for reporting (where `available_slots` is
clamped at zero). -/

/-- Default of `settings.MAX_CONCURRENT_DOWNLOADS` (`app/core/config.py`). -/
def settingsMaxConcurrentDownloads : ℕ := 10

/-- State of the queue-backed service: created download ids, the Redis
queue (LPUSH adds at the head), the `active_downloads` keys, and the
ephemeral status store. -/
structure ServiceState where
  svcJobs : List ℕ
  redisQueue : List ℕ
  activeIds : List ℕ
  statusStore : ℕ → Option StatusUpdate

/-- Initial service state. -/
def initService : ServiceState :=
  ⟨[], [], [], fun _ => none⟩

/-- Status-store content for one id after streaming one line: the last
status write of the line, if any (later writes overwrite earlier ones under
the same key). -/
def storeAfterLine (prev : Option StatusUpdate) (line : String) : Option StatusUpdate :=
  match (lineStatusWrites line).getLast? with
  | some u => some u
  | none => prev

/-- Effect of `create_download` + `queue_download`: record the job and LPUSH
its id. -/
def svcCreate (j : ℕ) (s : ServiceState) : ServiceState :=
  { s with svcJobs := s.svcJobs ++ [j], redisQueue := j :: s.redisQueue }

/-- Effect of entering `process_download`/`_execute_download`: the task
registers itself under `active_downloads`. -/
def svcBegin (j : ℕ) (s : ServiceState) : ServiceState :=
  { s with activeIds := j :: s.activeIds }

/-- Effect of streaming one output line of download `j`. -/
def svcLine (j : ℕ) (line : String) (s : ServiceState) : ServiceState :=
  { s with statusStore := fun i =>
      if i = j then storeAfterLine (s.statusStore j) line else s.statusStore i }

/-- Effect of the run of download `j` ending with `outcome`: the final
snapshot is published and the id leaves `active_downloads`. -/
def svcFinish (j : ℕ) (outcome : RunOutcome) (s : ServiceState) : ServiceState :=
  { s with
    activeIds := s.activeIds.erase j
    statusStore := fun i =>
      if i = j then some (finalStatusWrite outcome) else s.statusStore i }

/-- Transitions of the queue-backed service.  `beginProcess` carries no
capacity hypothesis because the source contains no capacity check. -/
inductive ServiceStep : ServiceState → ServiceState → Prop
  | createAndQueue (s : ServiceState) (j : ℕ) (hfresh : j ∉ s.svcJobs) :
      ServiceStep s (svcCreate j s)
  | beginProcess (s : ServiceState) (j : ℕ) (hjob : j ∈ s.svcJobs)
      (hnew : j ∉ s.activeIds) :
      ServiceStep s (svcBegin j s)
  | streamLine (s : ServiceState) (j : ℕ) (line : String) (hact : j ∈ s.activeIds) :
      ServiceStep s (svcLine j line s)
  | finishProcess (s : ServiceState) (j : ℕ) (outcome : RunOutcome)
      (hact : j ∈ s.activeIds) :
      ServiceStep s (svcFinish j outcome s)

/-- Reachable states of the queue-backed service. -/
inductive ServiceReach : ServiceState → Prop
  | init : ServiceReach initService
  | step (s s' : ServiceState) : ServiceReach s → ServiceStep s s' → ServiceReach s'

/-- Number of jobs whose published snapshot has status `downloading`. -/
def svcDownloadingCount (s : ServiceState) : ℕ :=
  (s.svcJobs.filter fun j =>
    match s.statusStore j with
    | some u => decide (u.status = "downloading")
    | none => false).length

/-! ### Derived notions and concrete instances used by the verification -/

/-- The progress percentage one line contributes to the status key, if
any. -/
def linePercent (line : String) : Option ℚ :=
  ((parseProgress line).filterMap fun e =>
    match e with
    | ProgressEvent.progressUpd p => some p
    | ProgressEvent.speedUpd _ => none).head?

/-- What claim C5 asserts of the non-audio-only format selector: it is an
ordered two-step fallback chain `primary / fallback` (neither part contains
a further `/`), whose primary bounds video height to the requested quality,
carries the fps filter exactly when a non-zero frame rate is configured,
and merges with best audio (`+bestaudio`); the fallback drops the
frame-rate constraint (no `f`, hence no `[fps<=...]` filter) and drops the
exact-format merge (no `+`), while still bounding height.  Character-level
membership is meaningful because the fixed selector skeleton contains no
`f` and no `+` outside the fps filter and the merge. -/
def SelectorFallbackSpec (q : String) (fps : Option ℕ) : Prop :=
  ∃ primary fallback : String,
    formatSelector q fps = primary ++ "/" ++ fallback ∧
    primary = "bestvideo[height<=" ++ q ++ "]" ++ fpsFilterStr fps ++ "+bestaudio" ∧
    fallback = "best[height<=" ++ q ++ "]" ∧
    '/' ∉ primary.data ∧ '/' ∉ fallback.data ∧
    (∀ f, fps = some f → 0 < f →
      fpsFilterStr fps = "[fps<=" ++ toString f ++ "]") ∧
    (fps = none → fpsFilterStr fps = "") ∧
    '+' ∈ primary.data ∧ '+' ∉ fallback.data ∧
    ('f' ∈ primary.data ↔ optNatTruthy fps = true) ∧
    'f' ∉ fallback.data

/-- A failed record whose retry budget is exhausted
(`retry_count = max_retries = 3`, the model default). -/
def atCapRecord : DownloadRecord :=
  ⟨DownloadStatus.failed, 30, some "network error", 3, 3⟩

/-- A run whose tool re-reports a lower percentage after a higher one. -/
def decreasingLines : List String :=
  ["[download] 50% of 10MiB", "[download] 10% of 10MiB"]

/-- A run whose tool reports monotonically increasing percentages. -/
def monotoneLines : List String :=
  ["[download] 10% of 10MiB", "[download] 50% of 10MiB"]

/-- Scenario B configuration for the queue-backed builder:
quality 720, not audio-only, container mp4, with a 60fps ceiling. -/
def demoCfg720 : DownloadConfig :=
  { url := "https://example.com/v", quality := "720", fps := some 60 }

/-- Scenario B configuration for the in-process builder. -/
def demoJob720 : DownloadJob :=
  { url := "https://example.com/v", resolution := "720", fps := some 60 }

/-- The eleven job ids of the over-capacity service scenario. -/
def elevenIds : List ℕ := List.range 11

/-- Service state after creating and queueing eleven downloads. -/
def svcAllCreated : ServiceState :=
  elevenIds.foldl (fun s j => svcCreate j s) initService

/-- Service state after `process_download` has started for all eleven
downloads (the source imposes no capacity gate on this). -/
def svcAllActive : ServiceState :=
  elevenIds.foldl (fun s j => svcBegin j s) svcAllCreated

/-- A progress line each of the eleven runs emits. -/
def demoProgressLine : String := "[download] 1%"

/-- Service state after each of the eleven active runs has streamed one
progress line: all eleven published snapshots say `downloading`. -/
def svcOverCap : ServiceState :=
  elevenIds.foldl (fun s j => svcLine j demoProgressLine s) svcAllActive

/-- Pool state after `add_download` of job 0. -/
def poolDemo1 : PoolState :=
  { initPool with
    jobs := initPool.jobs ++ [0]
    queuedJobs := initPool.queuedJobs ++ [0]
    jobStatus := setStatus initPool.jobStatus 0 DownloadStatus.pending }

/-- Pool state after `_process_queue` submitted job 0 to the executor. -/
def poolDemo2 : PoolState :=
  { poolDemo1 with
    queuedJobs := []
    submittedJobs := poolDemo1.submittedJobs ++ [0] }

/-- Pool state after a worker thread started job 0. -/
def poolDemo3 : PoolState :=
  { poolDemo2 with
    submittedJobs := []
    runningJobs := poolDemo2.runningJobs ++ [0]
    jobStatus := setStatus poolDemo2.jobStatus 0 DownloadStatus.downloading }

/-! ### Helper lemmas -/

/-- The last element of a list with one element appended. -/
theorem getLast?_append_singleton {α : Type} (l : List α) (a : α) :
    (l ++ [a]).getLast? = some a := by
  rw [List.getLast?_append_cons]
  rfl

/-! ### C2 — retry semantics (`retry_download`) -/

/-- C2 (amended): the retry endpoint resets any `failed` or `cancelled`
record to `pending` with progress 0, a cleared error, and `retry_count`
incremented by exactly one — regardless of how `retry_count` compares to
`max_retries`, which the endpoint never reads; every other status is
rejected with HTTP 400 and the record is untouched. -/
theorem c2_retry_resets_and_increments (d : DownloadRecord) :
    ((d.status = DownloadStatus.failed ∨ d.status = DownloadStatus.cancelled) →
      retryDownload d = Except.ok { d with
        status := DownloadStatus.pending
        progress := 0
        errorMessage := none
        retryCount := d.retryCount + 1 }) ∧
    (d.status ≠ DownloadStatus.failed → d.status ≠ DownloadStatus.cancelled →
      retryDownload d = Except.error 400) := by
  constructor
  · intro h
    simp [retryDownload, h]
  · intro h1 h2
    simp [retryDownload, h1, h2]

/-- C2 witness: a failed record with remaining retry budget is reset and
its count incremented. -/
theorem c2_retry_witness :
    retryDownload ⟨DownloadStatus.failed, 50, some "boom", 1, 3⟩ =
      Except.ok ⟨DownloadStatus.pending, 0, none, 2, 3⟩ :=
  (c2_retry_resets_and_increments ⟨DownloadStatus.failed, 50, some "boom", 1, 3⟩).1
    (Or.inl rfl)

/-- C2 counterexample: a failed record whose `retry_count` already equals
`max_retries` is NOT rejected — the endpoint accepts it, resets it and
pushes `retry_count` past `max_retries`, contradicting the claimed bound. -/
theorem c2_counterexample_retry_beyond_max :
    atCapRecord.retryCount = atCapRecord.maxRetries ∧
    retryDownload atCapRecord =
      Except.ok ⟨DownloadStatus.pending, 0, none, 4, 3⟩ := by
  constructor
  · rfl
  · rfl

/-! ### C3 — cancellation (`_execute_download`, `cancel_download`) -/

/-- C3 (amended): on cancellation the supervisor sends one terminate signal
and then waits with no grace-period bound and no forced kill: the wait
returns, and the `cancelled` snapshot is published, exactly when the
process eventually exits on its own after the signal. -/
theorem c3_cancel_waits_for_process_exit (b : Option ℕ) :
    ((∃ t, cancelWaitDone b t = true) ↔ b ≠ none) ∧
    (∀ k, b = some k → ∀ t, (cancelWaitDone b t = true ↔ k ≤ t)) ∧
    (b ≠ none → cancelFinalWrite b = some ⟨"cancelled", some 0, none⟩) ∧
    (b = none → cancelFinalWrite b = none) := by
  refine ⟨?_, ?_, ?_, ?_⟩
  · cases b with
    | none => simp [cancelWaitDone]
    | some k => exact ⟨fun _ => by simp, fun _ => ⟨k, by simp [cancelWaitDone]⟩⟩
  · intro k hk t
    subst hk
    simp [cancelWaitDone]
  · intro h
    cases b with
    | none => exact absurd rfl h
    | some k => rfl
  · intro h
    subst h
    rfl

/-- C3 witness: a process exiting five units after the terminate signal has
been reaped by time seven. -/
theorem c3_cancel_witness : cancelWaitDone (some 5) 7 = true :=
  (((c3_cancel_waits_for_process_exit (some 5)).2.1 5 rfl 7)).mpr (by decide)

/-- C3 counterexample: a process that ignores the terminate signal leaves
the cancel handler blocked indefinitely — the wait has still not returned
after 10^9 time units and the terminal `cancelled` snapshot is never
published, contradicting the claimed grace-period-plus-bounded-delay
guarantee (the handler contains no forced termination). -/
theorem c3_counterexample_terminate_ignored :
    cancelWaitDone none 1000000000 = false ∧ cancelFinalWrite none = none :=
  ⟨rfl, rfl⟩

/-! ### C4 — exit-code mapping -/

/-- C4 (amended): exit code 0 maps to `completed` (progress 100) in both
engines; a non-zero exit maps to `failed` in both, but only the in-process
downloader attaches the trailing (last ten) output lines as the error
detail — and that detail is empty when the process produced no output —
while the queue-backed service publishes `failed` with progress 0 and no
error detail at all. -/
theorem c4_exit_code_mapping (lines outLines : List String) (code : ℤ) :
    (code ≠ 0 →
      (executeStatusWrites lines (RunOutcome.exited code)).getLast? =
        some ⟨"failed", some 0, none⟩ ∧
      downloadFinalUpdate outLines code =
        ⟨"failed", none, some (String.intercalate "\n" (lastTen outLines))⟩) ∧
    ((executeStatusWrites lines (RunOutcome.exited 0)).getLast? =
        some ⟨"completed", some 100, none⟩ ∧
      downloadFinalUpdate outLines 0 = ⟨"completed", some 100, none⟩) := by
  refine ⟨fun hc => ⟨?_, ?_⟩, ?_, ?_⟩
  · rw [executeStatusWrites, getLast?_append_singleton]
    simp [finalStatusWrite, hc]
  · simp [downloadFinalUpdate, hc]
  · rw [executeStatusWrites, getLast?_append_singleton]
    simp [finalStatusWrite]
  · simp [downloadFinalUpdate]

/-- C4 witness: a run with streamed progress that exits with code 1. -/
theorem c4_exit_code_witness :
    (executeStatusWrites ["[download]  50.0% of 10MiB"] (RunOutcome.exited 1)).getLast? =
      some ⟨"failed", some 0, none⟩ ∧
    downloadFinalUpdate ["ERROR: oops"] 1 = ⟨"failed", none, some "ERROR: oops"⟩ :=
  ⟨((c4_exit_code_mapping ["[download]  50.0% of 10MiB"] ["ERROR: oops"] 1).1 (by decide)).1,
   ((c4_exit_code_mapping ["[download]  50.0% of 10MiB"] ["ERROR: oops"] 1).1 (by decide)).2⟩

/-- C4 counterexample: a non-zero exit in the queue-backed service publishes
`failed` with NO diagnostic detail (`errorMessage = none`) even though the
process emitted an error line, and the in-process downloader's detail is
the empty string when the process produced no output — both contradicting
the claimed non-empty trailing diagnostic. -/
theorem c4_counterexample_missing_diagnostics :
    (executeStatusWrites ["ERROR: unable to download video data"]
        (RunOutcome.exited 1)).getLast? = some ⟨"failed", some 0, none⟩ ∧
    downloadFinalUpdate [] 1 = ⟨"failed", none, some ""⟩ := by
  constructor
  · rfl
  · rfl

/-! ### C9 — terminal snapshots of failed/cancelled runs -/

/-- C9: whenever a queue-backed run ends in failure or cancellation, the
final published snapshot carries progress `0`, overwriting whatever
progress was published earlier in the same run (the reader sees only the
most recent write under the status key). -/
theorem c9_terminal_snapshot_progress_zero (lines : List String) (code : ℤ)
    (hc : code ≠ 0) :
    (executeStatusWrites lines (RunOutcome.exited code)).getLast? =
      some ⟨"failed", some 0, none⟩ ∧
    (executeStatusWrites lines RunOutcome.cancelledByCaller).getLast? =
      some ⟨"cancelled", some 0, none⟩ := by
  constructor
  · rw [executeStatusWrites, getLast?_append_singleton]
    simp [finalStatusWrite, hc]
  · rw [executeStatusWrites, getLast?_append_singleton]
    rfl

/-- C9 witness: a run that had already published 50 percent still ends with
progress 0 when it fails. -/
theorem c9_terminal_snapshot_witness :
    (executeStatusWrites ["[download]  50.0% of 10MiB at 1.00MiB/s"]
        (RunOutcome.exited 1)).getLast? = some ⟨"failed", some 0, none⟩ :=
  (c9_terminal_snapshot_progress_zero ["[download]  50.0% of 10MiB at 1.00MiB/s"] 1
    (by decide)).1

/-! ### Supporting lemmas for the parser, selector and pool proofs -/

theorem string_data_append (a b : String) : (a ++ b).data = a.data ++ b.data := rfl

theorem takeDigits_append (ds : List Char) (hds : ∀ c ∈ ds, c.isDigit = true)
    (c : Char) (hc : c.isDigit = false) (r : List Char) :
    takeDigits (ds ++ c :: r) = (ds, c :: r) := by
  induction ds with
  | nil => simp [takeDigits, hc]
  | cons d ds ih =>
    have hd : d.isDigit = true := hds d (by simp)
    have := ih (fun x hx => hds x (by simp [hx]))
    simp [takeDigits, hd, this]

theorem searchSpeed_not_digit_cons (c : Char) (cs : List Char) (hc : c.isDigit = false) :
    searchSpeed (c :: cs) = searchSpeed cs := by
  have ht : tryTokenAt (c :: cs) = none := by
    have h0 : takeDigits (c :: cs) = ([], c :: cs) := by simp [takeDigits, hc]
    simp only [tryTokenAt, h0]
    simp
  rw [searchSpeed, ht]

theorem searchSpeed_append_nondigit (pre : List Char) (h : ∀ c ∈ pre, c.isDigit = false)
    (cs : List Char) : searchSpeed (pre ++ cs) = searchSpeed cs := by
  induction pre with
  | nil => rfl
  | cons c p ih =>
    rw [List.cons_append, searchSpeed_not_digit_cons c _ (h c (by simp))]
    exact ih (fun x hx => h x (by simp [hx]))

theorem matchUnit_kib (post : List Char) : matchUnit ("KiB/s".data ++ post) = some 1024 := by
  have h : List.isPrefixOf "KiB/s".data ("KiB/s".data ++ post) = true :=
    List.isPrefixOf_iff_prefix.mpr (List.prefix_append _ _)
  simp [matchUnit, h]

theorem matchUnit_mib (post : List Char) : matchUnit ("MiB/s".data ++ post) = some (1024 ^ 2) := by
  have hk : List.isPrefixOf "KiB/s".data ("MiB/s".data ++ post) = false := by
    refine Bool.eq_false_iff.mpr fun hh => ?_
    have hp := List.isPrefixOf_iff_prefix.mp hh
    rw [show "KiB/s".data = 'K' :: "iB/s".data from rfl,
        show "MiB/s".data ++ post = 'M' :: ("iB/s".data ++ post) from rfl] at hp
    rcases List.cons_prefix_cons.mp hp with ⟨h1, -⟩
    exact absurd h1 (by decide)
  have hm : List.isPrefixOf "MiB/s".data ("MiB/s".data ++ post) = true :=
    List.isPrefixOf_iff_prefix.mpr (List.prefix_append _ _)
  simp [matchUnit, hk, hm]

theorem matchUnit_gib (post : List Char) : matchUnit ("GiB/s".data ++ post) = some (1024 ^ 3) := by
  have hk : List.isPrefixOf "KiB/s".data ("GiB/s".data ++ post) = false := by
    refine Bool.eq_false_iff.mpr fun hh => ?_
    have hp := List.isPrefixOf_iff_prefix.mp hh
    rw [show "KiB/s".data = 'K' :: "iB/s".data from rfl,
        show "GiB/s".data ++ post = 'G' :: ("iB/s".data ++ post) from rfl] at hp
    rcases List.cons_prefix_cons.mp hp with ⟨h1, -⟩
    exact absurd h1 (by decide)
  have hm : List.isPrefixOf "MiB/s".data ("GiB/s".data ++ post) = false := by
    refine Bool.eq_false_iff.mpr fun hh => ?_
    have hp := List.isPrefixOf_iff_prefix.mp hh
    rw [show "MiB/s".data = 'M' :: "iB/s".data from rfl,
        show "GiB/s".data ++ post = 'G' :: ("iB/s".data ++ post) from rfl] at hp
    rcases List.cons_prefix_cons.mp hp with ⟨h1, -⟩
    exact absurd h1 (by decide)
  have hg : List.isPrefixOf "GiB/s".data ("GiB/s".data ++ post) = true :=
    List.isPrefixOf_iff_prefix.mpr (List.prefix_append _ _)
  simp [matchUnit, hk, hm, hg]

theorem tryTokenAt_dot (d1 d2 : List Char) (h1 : d1 ≠ [])
    (hd1 : ∀ c ∈ d1, c.isDigit = true) (hd2 : ∀ c ∈ d2, c.isDigit = true)
    (uhead : Char) (utail : List Char) (hu : uhead.isDigit = false) (m : ℚ)
    (hm : matchUnit (uhead :: utail) = some m) :
    tryTokenAt (d1 ++ '.' :: (d2 ++ uhead :: utail)) = some (decimalVal d1 d2 * m) := by
  have h0 : takeDigits (d1 ++ '.' :: (d2 ++ uhead :: utail)) =
      (d1, '.' :: (d2 ++ uhead :: utail)) :=
    takeDigits_append d1 hd1 '.' (by decide) _
  have h2 : takeDigits (d2 ++ uhead :: utail) = (d2, uhead :: utail) :=
    takeDigits_append d2 hd2 uhead hu _
  simp only [tryTokenAt, h0]
  simp [h1, h2, hm]

theorem tryTokenAt_nodot (d1 : List Char) (h1 : d1 ≠ [])
    (hd1 : ∀ c ∈ d1, c.isDigit = true)
    (uhead : Char) (utail : List Char) (hu : uhead.isDigit = false)
    (hdot : uhead ≠ '.') (m : ℚ)
    (hm : matchUnit (uhead :: utail) = some m) :
    tryTokenAt (d1 ++ uhead :: utail) = some ((digitsVal d1 : ℚ) * m) := by
  have h0 : takeDigits (d1 ++ uhead :: utail) = (d1, uhead :: utail) :=
    takeDigits_append d1 hd1 uhead hu _
  simp only [tryTokenAt, h0]
  simp [h1, hdot, hm]

theorem searchSpeed_head_token (cs : List Char) (v : ℚ) (hne : cs ≠ [])
    (h : tryTokenAt cs = some v) : searchSpeed cs = some v := by
  cases cs with
  | nil => exact absurd rfl hne
  | cons c r => rw [searchSpeed, h]

theorem isInfixChars_iff (pat : List Char) (l : List Char) :
    isInfixChars pat l = true ↔ pat <:+: l := by
  induction l with
  | nil =>
    simp [isInfixChars, List.infix_nil]
  | cons c cs ih =>
    rw [isInfixChars]
    simp [ih, List.isPrefixOf_iff_prefix, List.infix_cons_iff]

theorem pyContains_slash_of_iB (line : String) (h : pyContains line "/s" = false) :
    pyContains line "iB/s" = false := by
  refine Bool.eq_false_iff.mpr fun hh => ?_
  have h2 : "iB/s".data <:+: line.data := (isInfixChars_iff _ _).mp hh
  have h3 : "/s".data <:+: "iB/s".data := by decide
  have h4 : "/s".data <:+: line.data := h3.trans h2
  exact Bool.eq_false_iff.mp h ((isInfixChars_iff _ _).mpr h4)

theorem findPercent_eq_head (ws : List (List Char)) :
    findPercent ws = (ws.filterMap percentToken).head? := by
  induction ws with
  | nil => rfl
  | cons w ws ih =>
    rw [findPercent]
    cases h : percentToken w with
    | some v => simp [List.filterMap_cons, h]
    | none => simp [List.filterMap_cons, h, ih]

theorem parseProgress_shapes (line : String) :
    parseProgress line = [] ∨
    (∃ p, parseProgress line = [ProgressEvent.progressUpd p]) ∨
    (∃ v, parseProgress line = [ProgressEvent.speedUpd v]) ∨
    (∃ p v, parseProgress line = [ProgressEvent.progressUpd p, ProgressEvent.speedUpd v]) := by
  rw [parseProgress]
  have hA : (if pyContains line "[download]" && pyContains line "%" then
        match findPercent (pySplit line) with
        | some p => [ProgressEvent.progressUpd p]
        | none => []
      else []) = [] ∨
      ∃ p, (if pyContains line "[download]" && pyContains line "%" then
        match findPercent (pySplit line) with
        | some p => [ProgressEvent.progressUpd p]
        | none => []
      else []) = [ProgressEvent.progressUpd p] := by
    split
    · cases h : findPercent (pySplit line) with
      | some q => exact Or.inr ⟨q, rfl⟩
      | none => exact Or.inl rfl
    · exact Or.inl rfl
  have hB : (if pyContains line "[download]" && (pyContains line "/s" || pyContains line "iB/s") then
        match extractSpeed line with
        | some v => [ProgressEvent.speedUpd v]
        | none => []
      else []) = [] ∨
      ∃ v, (if pyContains line "[download]" && (pyContains line "/s" || pyContains line "iB/s") then
        match extractSpeed line with
        | some v => [ProgressEvent.speedUpd v]
        | none => []
      else []) = [ProgressEvent.speedUpd v] := by
    split
    · cases h : extractSpeed line with
      | some w => exact Or.inr ⟨w, rfl⟩
      | none => exact Or.inl rfl
    · exact Or.inl rfl
  rcases hA with hA | ⟨p, hA⟩ <;> rcases hB with hB | ⟨v, hB⟩ <;> rw [hA, hB] <;> simp

theorem pdp_append (a b : List StatusUpdate) :
    publishedDownloadingProgress (a ++ b) =
      publishedDownloadingProgress a ++ publishedDownloadingProgress b := by
  simp [publishedDownloadingProgress, List.filter_append, List.filterMap_append]

theorem pdp_line (line : String) :
    publishedDownloadingProgress (lineStatusWrites line) = (linePercent line).toList := by
  rcases parseProgress_shapes line with h | ⟨p, h⟩ | ⟨v, h⟩ | ⟨p, v, h⟩ <;>
    simp [publishedDownloadingProgress, lineStatusWrites, linePercent, h,
      List.filterMap_cons, List.filter]

theorem pdp_final (outcome : RunOutcome) :
    publishedDownloadingProgress [finalStatusWrite outcome] = [] := by
  cases outcome with
  | exited code =>
    by_cases h : code = 0 <;>
      simp [publishedDownloadingProgress, finalStatusWrite, h, List.filter]
  | cancelledByCaller =>
    simp [publishedDownloadingProgress, finalStatusWrite, List.filter]

theorem pdp_flatten (ls : List String) :
    publishedDownloadingProgress (List.map lineStatusWrites ls).flatten =
      ls.filterMap linePercent := by
  induction ls with
  | nil => rfl
  | cons l ls ih =>
    rw [List.map_cons, List.flatten_cons, pdp_append, ih, List.filterMap_cons, pdp_line]
    cases h : linePercent l with
    | some p => simp [h]
    | none => simp [h]

theorem digitChar_isDigit (n : ℕ) (h : n < 10) : (Nat.digitChar n).isDigit = true := by
  interval_cases n <;> decide

theorem toDigitsCore_digits (fuel : ℕ) : ∀ (n : ℕ) (acc : List Char),
    (∀ c ∈ acc, c.isDigit = true) →
    ∀ c ∈ Nat.toDigitsCore 10 fuel n acc, c.isDigit = true := by
  induction fuel with
  | zero =>
    intro n acc hacc c hc
    exact hacc c hc
  | succ fuel ih =>
    intro n acc hacc c hc
    rw [Nat.toDigitsCore] at hc
    have hd : (Nat.digitChar (n % 10)).isDigit = true :=
      digitChar_isDigit _ (Nat.mod_lt _ (by omega))
    by_cases h0 : n / 10 = 0
    · rw [if_pos h0] at hc
      rcases List.mem_cons.mp hc with rfl | hc2
      · exact hd
      · exact hacc c hc2
    · rw [if_neg h0] at hc
      refine ih (n / 10) (Nat.digitChar (n % 10) :: acc) ?_ c hc
      intro x hx
      rcases List.mem_cons.mp hx with rfl | hx2
      · exact hd
      · exact hacc x hx2

theorem natToString_digits (n : ℕ) : ∀ c ∈ (toString n).data, c.isDigit = true := by
  intro c hc
  have h : (toString n).data = Nat.toDigitsCore 10 (n + 1) n [] := rfl
  rw [h] at hc
  exact toDigitsCore_digits (n + 1) n [] (by simp) c hc

theorem string_ext_data {a b : String} (h : a.data = b.data) : a = b := by
  cases a
  cases b
  exact congrArg String.mk h

theorem fpsFilterStr_no_slash (fps : Option ℕ) : '/' ∉ (fpsFilterStr fps).data := by
  cases fps with
  | none => simp [fpsFilterStr]
  | some f =>
    by_cases hf : f = 0
    · simp [fpsFilterStr, hf]
    · rw [fpsFilterStr]
      rw [if_pos hf]
      intro hmem
      rw [string_data_append, string_data_append] at hmem
      rcases List.mem_append.mp hmem with hm | hm
      · rcases List.mem_append.mp hm with hm2 | hm2
        · exact absurd hm2 (by decide)
        · have := natToString_digits f '/' hm2
          exact absurd this (by decide)
      · exact absurd hm (by decide)

theorem fpsFilterStr_f_mem (fps : Option ℕ) :
    ('f' ∈ (fpsFilterStr fps).data ↔ optNatTruthy fps = true) := by
  cases fps with
  | none => simp [fpsFilterStr, optNatTruthy]
  | some f =>
    by_cases hf : f = 0
    · simp [fpsFilterStr, optNatTruthy, hf]
    · rw [fpsFilterStr, if_pos hf]
      constructor
      · intro _
        simp [optNatTruthy, hf]
      · intro _
        rw [string_data_append, string_data_append]
        simp only [List.mem_append]
        left
        left
        decide

theorem selector_decomposition (q : String) (fps : Option ℕ)
    (hq : ∀ c ∈ q.data, c.isDigit = true) :
    ∃ primary fallback : String,
      formatSelector q fps = primary ++ "/" ++ fallback ∧
      primary = "bestvideo[height<=" ++ q ++ "]" ++ fpsFilterStr fps ++ "+bestaudio" ∧
      fallback = "best[height<=" ++ q ++ "]" ∧
      '/' ∉ primary.data ∧ '/' ∉ fallback.data ∧
      (∀ f, fps = some f → 0 < f →
        fpsFilterStr fps = "[fps<=" ++ toString f ++ "]") ∧
      (fps = none → fpsFilterStr fps = "") ∧
      '+' ∈ primary.data ∧ '+' ∉ fallback.data ∧
      ('f' ∈ primary.data ↔ optNatTruthy fps = true) ∧
      'f' ∉ fallback.data := by
  refine ⟨"bestvideo[height<=" ++ q ++ "]" ++ fpsFilterStr fps ++ "+bestaudio",
    "best[height<=" ++ q ++ "]", ?_, rfl, rfl, ?_, ?_, ?_, ?_, ?_, ?_, ?_, ?_⟩
  · refine string_ext_data ?_
    simp [string_data_append, formatSelector, List.append_assoc]
  · intro hmem
    simp only [string_data_append, List.mem_append] at hmem
    rcases hmem with (((hm | hm) | hm) | hm) | hm
    · exact absurd hm (by decide)
    · exact absurd (hq '/' hm) (by decide)
    · exact absurd hm (by decide)
    · exact fpsFilterStr_no_slash fps hm
    · exact absurd hm (by decide)
  · intro hmem
    simp only [string_data_append, List.mem_append] at hmem
    rcases hmem with (hm | hm) | hm
    · exact absurd hm (by decide)
    · exact absurd (hq '/' hm) (by decide)
    · exact absurd hm (by decide)
  · intro f hf hpos
    subst hf
    rw [fpsFilterStr, if_pos (by omega : f ≠ 0)]
  · intro hf
    subst hf
    rfl
  · simp only [string_data_append, List.mem_append]
    right
    decide
  · intro hmem
    simp only [string_data_append, List.mem_append] at hmem
    rcases hmem with (hm | hm) | hm
    · exact absurd hm (by decide)
    · exact absurd (hq '+' hm) (by decide)
    · exact absurd hm (by decide)
  · constructor
    · intro hmem
      simp only [string_data_append, List.mem_append] at hmem
      rcases hmem with (((hm | hm) | hm) | hm) | hm
      · exact absurd hm (by decide)
      · exact absurd (hq 'f' hm) (by decide)
      · exact absurd hm (by decide)
      · exact (fpsFilterStr_f_mem fps).mp hm
      · exact absurd hm (by decide)
    · intro ht
      simp only [string_data_append, List.mem_append]
      left
      right
      exact (fpsFilterStr_f_mem fps).mpr ht
  · intro hmem
    simp only [string_data_append, List.mem_append] at hmem
    rcases hmem with (hm | hm) | hm
    · exact absurd hm (by decide)
    · exact absurd (hq 'f' hm) (by decide)
    · exact absurd hm (by decide)

/-! ### Pool invariant and service reachability lemmas -/

theorem poolInv_init (W : ℕ) : PoolInv W initPool := by
  refine ⟨List.nodup_nil, List.nodup_nil, ?_, ?_, Nat.zero_le W⟩
  · intro j hj
    simp [initPool] at hj
  · intro j
    simp [initPool]

theorem setStatus_same (f : ℕ → DownloadStatus) (j : ℕ) (st : DownloadStatus) :
    setStatus f j st j = st := by
  simp [setStatus]

theorem setStatus_other (f : ℕ → DownloadStatus) (j : ℕ) (st : DownloadStatus)
    (i : ℕ) (h : i ≠ j) : setStatus f j st i = f i := by
  simp [setStatus, h]

theorem poolInv_step {W : ℕ} {s s' : PoolState} (hinv : PoolInv W s)
    (hstep : PoolStep W s s') : PoolInv W s' := by
  obtain ⟨hjobs, hpipe, hsub, hstat, hcap⟩ := hinv
  cases hstep with
  | addDownload j hfresh =>
    have hjp : j ∉ s.queuedJobs ++ s.submittedJobs ++ s.runningJobs :=
      fun hmem => hfresh (hsub j hmem)
    refine ⟨?_, ?_, ?_, ?_, hcap⟩
    · refine hjobs.append (List.nodup_singleton j) ?_
      intro a ha hb
      rw [List.mem_singleton] at hb
      subst hb
      exact hfresh ha
    · have base : (j :: (s.queuedJobs ++ (s.submittedJobs ++ s.runningJobs))).Nodup := by
        rw [List.nodup_cons]
        refine ⟨?_, by simpa [List.append_assoc] using hpipe⟩
        simpa [List.append_assoc] using hjp
      have hperm : (j :: (s.queuedJobs ++ (s.submittedJobs ++ s.runningJobs))).Perm
          ((s.queuedJobs ++ [j]) ++ s.submittedJobs ++ s.runningJobs) := by
        have h1 : (s.queuedJobs ++ [j]) ++ s.submittedJobs ++ s.runningJobs =
            s.queuedJobs ++ (j :: (s.submittedJobs ++ s.runningJobs)) := by
          simp
        rw [h1]
        exact List.perm_middle.symm
      exact hperm.nodup base
    · intro i hi
      simp only [List.mem_append, List.mem_singleton] at hi ⊢
      rcases hi with ((hq | rfl) | hs2) | hr
      · exact Or.inl (hsub i (by simp [List.mem_append, hq]))
      · exact Or.inr rfl
      · exact Or.inl (hsub i (by simp [List.mem_append, hs2]))
      · exact Or.inl (hsub i (by simp [List.mem_append, hr]))
    · intro i
      show setStatus s.jobStatus j DownloadStatus.pending i = DownloadStatus.downloading ↔
        i ∈ s.runningJobs
      by_cases hij : i = j
      · subst hij
        rw [setStatus_same]
        constructor
        · intro h
          exact absurd h (by simp)
        · intro hmem
          exact absurd (by simp [List.mem_append, hmem] :
            i ∈ s.queuedJobs ++ s.submittedJobs ++ s.runningJobs) hjp
      · rw [setStatus_other _ _ _ _ hij]
        exact hstat i
  | dispatch j rest hq =>
    rw [hq] at hpipe
    refine ⟨hjobs, ?_, ?_, hstat, hcap⟩
    · have hshape : ((j :: rest) ++ s.submittedJobs ++ s.runningJobs) =
          j :: (rest ++ (s.submittedJobs ++ s.runningJobs)) := by simp
      rw [hshape] at hpipe
      have hshape2 : rest ++ (s.submittedJobs ++ [j]) ++ s.runningJobs =
          (rest ++ s.submittedJobs) ++ (j :: s.runningJobs) := by simp
      rw [hshape2]
      have hperm : (j :: (rest ++ (s.submittedJobs ++ s.runningJobs))).Perm
          ((rest ++ s.submittedJobs) ++ (j :: s.runningJobs)) := by
        have h1 : j :: (rest ++ (s.submittedJobs ++ s.runningJobs)) =
            j :: ((rest ++ s.submittedJobs) ++ s.runningJobs) := by simp
        rw [h1]
        exact List.perm_middle.symm
      exact hperm.nodup hpipe
    · intro i hi
      simp only [List.mem_append, List.mem_singleton] at hi
      rcases hi with (hr | (hs2 | rfl)) | hrun
      · exact hsub i (by simp [List.mem_append, hq, List.mem_cons, hr])
      · exact hsub i (by simp [List.mem_append, hs2])
      · exact hsub i (by simp [List.mem_append, hq])
      · exact hsub i (by simp [List.mem_append, hrun])
  | startWorker j rest hs2 hcap2 =>
    rw [hs2] at hpipe
    refine ⟨hjobs, ?_, ?_, ?_, ?_⟩
    · have hshape : (s.queuedJobs ++ (j :: rest) ++ s.runningJobs) =
          s.queuedJobs ++ (j :: (rest ++ s.runningJobs)) := by simp
      rw [hshape] at hpipe
      have hshape2 : s.queuedJobs ++ rest ++ (s.runningJobs ++ [j]) =
          s.queuedJobs ++ (rest ++ (s.runningJobs ++ [j])) := by simp
      rw [hshape2]
      have hperm : (j :: (rest ++ s.runningJobs)).Perm (rest ++ (s.runningJobs ++ [j])) := by
        refine List.Perm.trans List.perm_middle.symm ?_
        refine List.Perm.append_left rest ?_
        exact (List.perm_append_singleton j s.runningJobs).symm
      exact ((hperm.append_left s.queuedJobs).nodup) hpipe
    · intro i hi
      simp only [List.mem_append, List.mem_singleton] at hi
      rcases hi with (hr | hs3) | (hrun | rfl)
      · exact hsub i (by simp [List.mem_append, hr])
      · exact hsub i (by simp [List.mem_append, hs2, List.mem_cons, hs3])
      · exact hsub i (by simp [List.mem_append, hrun])
      · exact hsub i (by simp [List.mem_append, hs2])
    · intro i
      show setStatus s.jobStatus j DownloadStatus.downloading i = DownloadStatus.downloading ↔
        i ∈ s.runningJobs ++ [j]
      by_cases hij : i = j
      · subst hij
        rw [setStatus_same]
        simp
      · rw [setStatus_other _ _ _ _ hij]
        rw [hstat i]
        simp [List.mem_append, hij]
    · show (s.runningJobs ++ [j]).length ≤ W
      rw [List.length_append]
      simp only [List.length_singleton]
      omega
  | finishWorker j st hrun hterm =>
    have hrunnodup : s.runningJobs.Nodup := (List.nodup_append.mp hpipe).2.1
    refine ⟨hjobs, ?_, ?_, ?_, ?_⟩
    · exact (((List.erase_sublist j s.runningJobs).append_left
        (s.queuedJobs ++ s.submittedJobs))).nodup hpipe
    · intro i hi
      simp only [List.mem_append] at hi
      rcases hi with (hr | hs3) | hrune
      · exact hsub i (by simp [List.mem_append, hr])
      · exact hsub i (by simp [List.mem_append, hs3])
      · exact hsub i (by simp [List.mem_append, List.mem_of_mem_erase hrune])
    · intro i
      show setStatus s.jobStatus j st i = DownloadStatus.downloading ↔
        i ∈ s.runningJobs.erase j
      by_cases hij : i = j
      · subst hij
        rw [setStatus_same]
        constructor
        · intro h
          rcases hterm with rfl | rfl <;> simp at h
        · intro hmem
          rw [hrunnodup.mem_erase_iff] at hmem
          exact absurd rfl hmem.1
      · rw [setStatus_other _ _ _ _ hij]
        rw [hstat i]
        exact (List.mem_erase_of_ne hij).symm
    · exact le_trans (List.erase_sublist j s.runningJobs).length_le hcap

theorem poolInv_reach {W : ℕ} {s : PoolState} (h : PoolReach W s) : PoolInv W s := by
  induction h with
  | init => exact poolInv_init W
  | step s s' hr hstep ih => exact poolInv_step ih hstep

theorem svcCreate_fold_props : ∀ n : ℕ,
    (((List.range n).foldl (fun s j => svcCreate j s) initService).svcJobs = List.range n) ∧
    (((List.range n).foldl (fun s j => svcCreate j s) initService).activeIds = []) ∧
    ServiceReach ((List.range n).foldl (fun s j => svcCreate j s) initService) := by
  intro n
  induction n with
  | zero => exact ⟨rfl, rfl, ServiceReach.init⟩
  | succ n ih =>
    obtain ⟨hjobs, hact, hreach⟩ := ih
    rw [List.range_succ, List.foldl_append, List.foldl_cons, List.foldl_nil]
    refine ⟨?_, ?_, ?_⟩
    · show ((List.range n).foldl (fun s j => svcCreate j s) initService).svcJobs ++ [n] =
        List.range n ++ [n]
      rw [hjobs]
    · show ((List.range n).foldl (fun s j => svcCreate j s) initService).activeIds = []
      exact hact
    · refine ServiceReach.step _ _ hreach ?_
      refine ServiceStep.createAndQueue _ n ?_
      rw [hjobs]
      simp [List.mem_range]

theorem svcBegin_fold_props : ∀ n : ℕ, n ≤ 11 →
    (((List.range n).foldl (fun s j => svcBegin j s) svcAllCreated).svcJobs = List.range 11) ∧
    (((List.range n).foldl (fun s j => svcBegin j s) svcAllCreated).activeIds =
      (List.range n).reverse) ∧
    ServiceReach ((List.range n).foldl (fun s j => svcBegin j s) svcAllCreated) := by
  intro n
  induction n with
  | zero =>
    intro _
    exact ⟨(svcCreate_fold_props 11).1, (svcCreate_fold_props 11).2.1,
      (svcCreate_fold_props 11).2.2⟩
  | succ n ih =>
    intro hn
    obtain ⟨hjobs, hact, hreach⟩ := ih (by omega)
    rw [List.range_succ, List.foldl_append, List.foldl_cons, List.foldl_nil]
    refine ⟨?_, ?_, ?_⟩
    · show ((List.range n).foldl (fun s j => svcBegin j s) svcAllCreated).svcJobs =
        List.range 11
      exact hjobs
    · show n :: ((List.range n).foldl (fun s j => svcBegin j s) svcAllCreated).activeIds =
        (List.range n ++ [n]).reverse
      rw [hact, List.reverse_append]
      rfl
    · refine ServiceReach.step _ _ hreach ?_
      refine ServiceStep.beginProcess _ n ?_ ?_
      · rw [hjobs]
        simp [List.mem_range]
        omega
      · rw [hact]
        simp [List.mem_reverse, List.mem_range]

theorem svcLine_fold_props : ∀ n : ℕ, n ≤ 11 →
    (((List.range n).foldl (fun s j => svcLine j demoProgressLine s) svcAllActive).activeIds =
      (List.range 11).reverse) ∧
    ServiceReach ((List.range n).foldl (fun s j => svcLine j demoProgressLine s) svcAllActive) := by
  intro n
  induction n with
  | zero =>
    intro _
    exact ⟨(svcBegin_fold_props 11 le_rfl).2.1, (svcBegin_fold_props 11 le_rfl).2.2⟩
  | succ n ih =>
    intro hn
    obtain ⟨hact, hreach⟩ := ih (by omega)
    rw [List.range_succ, List.foldl_append, List.foldl_cons, List.foldl_nil]
    refine ⟨?_, ?_⟩
    · show ((List.range n).foldl (fun s j => svcLine j demoProgressLine s)
          svcAllActive).activeIds = (List.range 11).reverse
      exact hact
    · refine ServiceReach.step _ _ hreach ?_
      refine ServiceStep.streamLine _ n demoProgressLine ?_
      rw [hact]
      simp [List.mem_reverse, List.mem_range]
      omega


/-! ### C1 — concurrency cap -/

/-- C1 (amended): in the in-process downloader, at every reachable state the
number of jobs whose recorded status is `downloading` is at most
`max_workers`, because the fixed-size `ThreadPoolExecutor` is the only path
into the `downloading` status.  (The queue-backed service provides no such
bound — see the counterexample — since no code path checks
`MAX_CONCURRENT_DOWNLOADS` before executing a download.) -/
theorem c1_worker_pool_capacity (W : ℕ) (s : PoolState) (h : PoolReach W s) :
    downloadingCount s ≤ W := by
  obtain ⟨hjobs, hpipe, hsub, hstat, hcap⟩ := poolInv_reach h
  rw [downloadingCount]
  have hnodupF : (s.jobs.filter fun j =>
      decide (s.jobStatus j = DownloadStatus.downloading)).Nodup := hjobs.filter _
  have hss : (s.jobs.filter fun j =>
      decide (s.jobStatus j = DownloadStatus.downloading)) ⊆ s.runningJobs := by
    intro a ha
    rw [List.mem_filter] at ha
    exact (hstat a).mp (of_decide_eq_true ha.2)
  exact le_trans (hnodupF.subperm hss).length_le hcap

/-- C1 witness: with one worker, the reachable state in which job 0 was
added, dispatched and started by a worker thread satisfies the cap. -/
theorem c1_worker_pool_capacity_witness : downloadingCount poolDemo3 ≤ 1 :=
  c1_worker_pool_capacity 1 poolDemo3
    (PoolReach.step _ _
      (PoolReach.step _ _
        (PoolReach.step _ _ PoolReach.init (PoolStep.addDownload initPool 0 (by decide)))
        (PoolStep.dispatch poolDemo1 0 [] rfl))
      (PoolStep.startWorker poolDemo2 0 [] rfl (by decide)))

/-- C1 counterexample: the queue-backed service reaches a state with eleven
downloads simultaneously publishing status `downloading`, strictly above
the configured `MAX_CONCURRENT_DOWNLOADS = 10` — the service never checks
the cap before executing a download, so no invariant bounds the count. -/
theorem c1_counterexample_service_exceeds_cap :
    ServiceReach svcOverCap ∧
    settingsMaxConcurrentDownloads < svcDownloadingCount svcOverCap := by
  refine ⟨(svcLine_fold_props 11 le_rfl).2, ?_⟩
  decide

/-! ### C7 — speed normalization and parser totality -/

/-- C7: the speed extractor is total and normalizes a transfer-rate token
`value`+`KiB/s`/`MiB/s`/`GiB/s` to bytes per second with binary multipliers
1024, 1024², 1024³ (both for fractional `d1.d2` and integer `d1` values,
taking the leftmost token when the prefix holds no digits); and a line
containing neither a percentage token nor a speed token produces no event
and no error. -/
theorem c7_speed_normalization_total (pre d1 d2 post u : String) (m : ℚ)
    (hpre : ∀ c ∈ pre.data, c.isDigit = false)
    (h1 : d1.data ≠ []) (hd1 : ∀ c ∈ d1.data, c.isDigit = true)
    (hd2 : ∀ c ∈ d2.data, c.isDigit = true)
    (hu : u = "KiB/s" ∧ m = 1024 ∨ u = "MiB/s" ∧ m = 1024 ^ 2 ∨
      u = "GiB/s" ∧ m = 1024 ^ 3) :
    extractSpeed (pre ++ d1 ++ "." ++ d2 ++ u ++ post) =
      some (decimalVal d1.data d2.data * m) ∧
    extractSpeed (pre ++ d1 ++ u ++ post) = some ((digitsVal d1.data : ℚ) * m) ∧
    (∀ line : String, pyContains line "%" = false → pyContains line "/s" = false →
      parseProgress line = []) := by
  refine ⟨?_, ?_, ?_⟩
  · have hdata : (pre ++ d1 ++ "." ++ d2 ++ u ++ post).data =
        pre.data ++ (d1.data ++ '.' :: (d2.data ++ (u.data ++ post.data))) := by
      simp only [string_data_append, List.append_assoc,
        show (".").data = ['.'] from rfl, List.singleton_append, List.cons_append,
        List.nil_append]
    rw [extractSpeed, hdata, searchSpeed_append_nondigit pre.data hpre]
    refine searchSpeed_head_token _ _ (by simp [h1]) ?_
    rcases hu with ⟨rfl, rfl⟩ | ⟨rfl, rfl⟩ | ⟨rfl, rfl⟩
    · exact tryTokenAt_dot d1.data d2.data h1 hd1 hd2 'K' _ (by decide) _ (matchUnit_kib _)
    · exact tryTokenAt_dot d1.data d2.data h1 hd1 hd2 'M' _ (by decide) _ (matchUnit_mib _)
    · exact tryTokenAt_dot d1.data d2.data h1 hd1 hd2 'G' _ (by decide) _ (matchUnit_gib _)
  · have hdata : (pre ++ d1 ++ u ++ post).data =
        pre.data ++ (d1.data ++ (u.data ++ post.data)) := by
      simp only [string_data_append, List.append_assoc]
    rw [extractSpeed, hdata, searchSpeed_append_nondigit pre.data hpre]
    refine searchSpeed_head_token _ _ (by simp [h1]) ?_
    rcases hu with ⟨rfl, rfl⟩ | ⟨rfl, rfl⟩ | ⟨rfl, rfl⟩
    · exact tryTokenAt_nodot d1.data h1 hd1 'K' _ (by decide) (by decide) _ (matchUnit_kib _)
    · exact tryTokenAt_nodot d1.data h1 hd1 'M' _ (by decide) (by decide) _ (matchUnit_mib _)
    · exact tryTokenAt_nodot d1.data h1 hd1 'G' _ (by decide) (by decide) _ (matchUnit_gib _)
  · intro line hpc hs
    have hs2 := pyContains_slash_of_iB line hs
    simp [parseProgress, hpc, hs, hs2]

/-- C7 witness: `1.25MiB/s` in the middle of a line yields
1.25·1024² bytes/second, and a line with no percent and no speed token
yields no event. -/
theorem c7_speed_normalization_witness :
    extractSpeed ("at " ++ "1" ++ "." ++ "25" ++ "MiB/s" ++ " ETA 00:04") =
      some (decimalVal "1".data "25".data * (1024 ^ 2 : ℚ)) ∧
    parseProgress "Deleting original file video.f616.mp4" = [] := by
  have h := c7_speed_normalization_total "at " "1" "25" " ETA 00:04" "MiB/s" (1024 ^ 2 : ℚ)
    (by decide) (by decide) (by decide) (by decide) (Or.inr (Or.inl ⟨rfl, rfl⟩))
  exact ⟨h.1, h.2.2 "Deleting original file video.f616.mp4" (by decide) (by decide)⟩

/-! ### C8 — ordering of published progress within one run -/

/-- C8 (amended): within one run the engine publishes exactly the
percentages parsed from the streamed lines, in arrival order, applying no
monotonicity suppression; the published sequence is non-decreasing whenever
the tool's own recognized reports are non-decreasing, but a lower re-report
is published as-is (see the counterexample). -/
theorem c8_progress_published_in_arrival_order (lines : List String)
    (outcome : RunOutcome) :
    publishedDownloadingProgress (executeStatusWrites lines outcome) =
      lines.filterMap linePercent ∧
    (List.Chain' (fun a b => a ≤ b) (lines.filterMap linePercent) →
      List.Chain' (fun a b => a ≤ b)
        (publishedDownloadingProgress (executeStatusWrites lines outcome))) := by
  have hmain : publishedDownloadingProgress (executeStatusWrites lines outcome) =
      lines.filterMap linePercent := by
    rw [executeStatusWrites, pdp_append, pdp_final, pdp_flatten, List.append_nil]
  exact ⟨hmain, fun h => hmain ▸ h⟩

/-- C8 witness: a run whose tool reports 10 percent and then 50 percent
publishes a non-decreasing sequence. -/
theorem c8_progress_witness :
    List.Chain' (fun a b : ℚ => a ≤ b)
      (publishedDownloadingProgress
        (executeStatusWrites monotoneLines (RunOutcome.exited 0))) :=
  (c8_progress_published_in_arrival_order monotoneLines (RunOutcome.exited 0)).2 (by
    have h1 : linePercent "[download] 10% of 10MiB" = some ((10 : ℕ) : ℚ) := rfl
    have h2 : linePercent "[download] 50% of 10MiB" = some ((50 : ℕ) : ℚ) := rfl
    rw [show monotoneLines = ["[download] 10% of 10MiB", "[download] 50% of 10MiB"] from rfl,
      List.filterMap_cons, List.filterMap_cons, List.filterMap_nil, h1, h2]
    rw [List.chain'_cons]
    exact ⟨by norm_num, List.chain'_singleton _⟩)

/-- C8 counterexample: when the tool re-reports 10 percent after 50
percent, the engine publishes 50 and then 10 — the published sequence
decreases, contradicting the claimed monotonicity of published progress
within one run. -/
theorem c8_counterexample_decreasing_report :
    publishedDownloadingProgress
        (executeStatusWrites decreasingLines (RunOutcome.exited 0)) = [50, 10] ∧
    ¬ List.Chain' (fun a b : ℚ => a ≤ b)
        (publishedDownloadingProgress
          (executeStatusWrites decreasingLines (RunOutcome.exited 0))) := by
  have h1 : linePercent "[download] 50% of 10MiB" = some ((50 : ℕ) : ℚ) := rfl
  have h2 : linePercent "[download] 10% of 10MiB" = some ((10 : ℕ) : ℚ) := rfl
  have hmain : publishedDownloadingProgress
      (executeStatusWrites decreasingLines (RunOutcome.exited 0)) = [50, 10] := by
    rw [executeStatusWrites, pdp_append, pdp_final, pdp_flatten, List.append_nil]
    rw [show decreasingLines =
      ["[download] 50% of 10MiB", "[download] 10% of 10MiB"] from rfl]
    rw [List.filterMap_cons, List.filterMap_cons, List.filterMap_nil, h1, h2]
    norm_num
  refine ⟨hmain, ?_⟩
  rw [hmain]
  intro hch
  rcases hch with _ | ⟨hle, -⟩
  norm_num at hle

/-! ### C10 — the `[download]` tag gate and first-percent-token rule -/

/-- C10: the queue-backed parser publishes an update only for lines
containing the literal `"[download]"` tag (a line without it produces no
event at all), and the percentage published is the value of the first
whitespace-delimited word ending in `%` whose remainder parses as a
float. -/
theorem c10_download_tag_gating (line : String) :
    (pyContains line "[download]" = false → parseProgress line = []) ∧
    (∀ p : ℚ, ProgressEvent.progressUpd p ∈ parseProgress line ↔
      ((pyContains line "[download]" && pyContains line "%") = true ∧
        ((pySplit line).filterMap percentToken).head? = some p)) := by
  constructor
  · intro h
    simp [parseProgress, h]
  · intro p
    constructor
    · intro hmem
      rcases List.mem_append.mp hmem with h | h
      · by_cases hcond : (pyContains line "[download]" && pyContains line "%") = true
        · rw [if_pos hcond] at h
          cases hf : findPercent (pySplit line) with
          | some q =>
            rw [hf] at h
            simp at h
            subst h
            exact ⟨hcond, by rw [← findPercent_eq_head, hf]⟩
          | none => rw [hf] at h; simp at h
        · rw [if_neg hcond] at h
          simp at h
      · exfalso
        by_cases hcond :
            (pyContains line "[download]" &&
              (pyContains line "/s" || pyContains line "iB/s")) = true
        · rw [if_pos hcond] at h
          cases hx : extractSpeed line with
          | some v => rw [hx] at h; simp at h
          | none => rw [hx] at h; simp at h
        · rw [if_neg hcond] at h
          simp at h
    · rintro ⟨hcond, hp⟩
      refine List.mem_append.mpr (Or.inl ?_)
      rw [if_pos hcond, findPercent_eq_head, hp]
      simp

/-- C10 witness: a tagged line publishes its first percent token; an
untagged line with a percent token publishes nothing. -/
theorem c10_download_tag_witness :
    ProgressEvent.progressUpd (45 : ℚ) ∈ parseProgress "[download] 45% of 10MiB" ∧
    parseProgress "45% of 10MiB at 1.25MiB/s" = [] :=
  ⟨((c10_download_tag_gating "[download] 45% of 10MiB").2 (45 : ℚ)).mpr
    ⟨by decide, by rw [show (45 : ℚ) = ((45 : ℕ) : ℚ) by norm_num]; rfl⟩,
   (c10_download_tag_gating "45% of 10MiB at 1.25MiB/s").1 (by decide)⟩

/-! ### C5 — format selector and fallback chain -/

/-- C5: audio-only configurations select the best-audio-only stream; all
other configurations get a two-step ordered fallback selector whose primary
bounds height to the configured quality, applies the fps filter exactly
when a (non-zero) frame rate is configured and merges with best audio, and
whose final fallback drops both the frame-rate constraint and the
exact-format merge while keeping the height bound — in both the
queue-backed and the in-process builder. -/
theorem c5_format_selector_fallback (cfg : DownloadConfig) (job : DownloadJob)
    (hq : ∀ c ∈ cfg.quality.data, c.isDigit = true)
    (hr : ∀ c ∈ job.resolution.data, c.isDigit = true) :
    (cfg.audioOnly = true → svcFormatArgs cfg = ["-f", "bestaudio"]) ∧
    (cfg.audioOnly = false →
      svcFormatArgs cfg = ["-f", formatSelector cfg.quality cfg.fps] ∧
      SelectorFallbackSpec cfg.quality cfg.fps) ∧
    (job.audioOnly = true → jobFormatArgs job = ["-f", "bestaudio"]) ∧
    (job.audioOnly = false →
      jobFormatArgs job = ["-f", formatSelector job.resolution job.fps] ∧
      SelectorFallbackSpec job.resolution job.fps) := by
  refine ⟨fun h => by simp [svcFormatArgs, h],
    fun h => ⟨by simp [svcFormatArgs, h], selector_decomposition _ _ hq⟩,
    fun h => by simp [jobFormatArgs, h],
    fun h => ⟨by simp [jobFormatArgs, h], selector_decomposition _ _ hr⟩⟩

/-- C5 witness (Scenario B with a 60fps ceiling): quality 720, not
audio-only — both builders emit the bounded selector with its fallback
chain. -/
theorem c5_format_selector_witness :
    svcFormatArgs demoCfg720 = ["-f", formatSelector "720" (some 60)] ∧
    SelectorFallbackSpec "720" (some 60) ∧
    jobFormatArgs demoJob720 = ["-f", formatSelector "720" (some 60)] := by
  have h := c5_format_selector_fallback demoCfg720 demoJob720 (by decide) (by decide)
  exact ⟨(h.2.1 rfl).1, (h.2.1 rfl).2, (h.2.2.2 rfl).1⟩

/-! ### C6 — mutual exclusion of audio extraction and remux flags -/

/-- Membership in a truthiness-guarded literal segment fails when the
element is not in the literal list. -/
theorem not_mem_ite_lits {c : Prop} [Decidable c] {l : List String} {x : String}
    (hx : x ∉ l) : x ∉ (if c then l else []) := by
  split
  · exact hx
  · simp

/-- The output template always contains a slash, so it never equals a
slash-free flag. -/
theorem tmpl_ne (d x : String) (hx : '/' ∉ x.data) :
    x ≠ d ++ "/" ++ "%(title)s.%(ext)s" := by
  intro h
  apply hx
  rw [h, string_data_append, string_data_append]
  refine List.mem_append.mpr (Or.inl (List.mem_append.mpr (Or.inr ?_)))
  decide

/-- The format selector starts with `b`, so it never equals a string
starting with `-`. -/
theorem formatSelector_ne (q : String) (fps : Option ℕ) (x : String)
    (hx : x.data.head? = some '-') : formatSelector q fps ≠ x := by
  intro h
  have hb : (formatSelector q fps).data.head? = some 'b' := rfl
  rw [h, hx] at hb
  exact absurd hb (by decide)

/-- A string starting with `-` other than `-f` never occurs among the
`-f` arguments. -/
theorem not_mem_svcFormatArgs (cfg : DownloadConfig) (x : String)
    (hx : x.data.head? = some '-') (hf : x ≠ "-f") : x ∉ svcFormatArgs cfg := by
  rw [svcFormatArgs]
  split
  · intro hm
    rcases List.mem_cons.mp hm with h | h
    · exact hf h
    · rw [List.mem_singleton] at h
      subst h
      exact absurd hx (by decide)
  · intro hm
    rcases List.mem_cons.mp hm with h | h
    · exact hf h
    · rw [List.mem_singleton] at h
      exact formatSelector_ne _ _ _ hx h.symm

/-- Counterpart of `not_mem_svcFormatArgs` for the in-process builder. -/
theorem not_mem_jobFormatArgs (job : DownloadJob) (x : String)
    (hx : x.data.head? = some '-') (hf : x ≠ "-f") : x ∉ jobFormatArgs job := by
  rw [jobFormatArgs]
  split
  · intro hm
    rcases List.mem_cons.mp hm with h | h
    · exact hf h
    · rw [List.mem_singleton] at h
      subst h
      exact absurd hx (by decide)
  · intro hm
    rcases List.mem_cons.mp hm with h | h
    · exact hf h
    · rw [List.mem_singleton] at h
      exact formatSelector_ne _ _ _ hx h.symm

/-- The extraction flag occurs in its block exactly when `extract_audio` is
set. -/
theorem mem_svcExtractAudioArgs (cfg : DownloadConfig) :
    ("--extract-audio" ∈ svcExtractAudioArgs cfg ↔ cfg.extractAudio = true) := by
  by_cases h : cfg.extractAudio
  · simp [svcExtractAudioArgs, h]
  · simp [svcExtractAudioArgs, h]

/-- The remux flag never occurs in the extraction block. -/
theorem not_remux_in_svcExtractAudioArgs (cfg : DownloadConfig)
    (haf : cfg.audioFormat ≠ "--remux-video") :
    "--remux-video" ∉ svcExtractAudioArgs cfg := by
  rw [svcExtractAudioArgs]
  split
  · intro hm
    rcases List.mem_cons.mp hm with h | hm2
    · exact absurd h (by decide)
    · rcases List.mem_cons.mp hm2 with h | hm3
      · exact absurd h (by decide)
      · rw [List.mem_singleton] at hm3
        exact haf hm3.symm
  · simp

/-- The remux flag occurs in its block exactly when the job is neither
audio-only nor extracting audio. -/
theorem mem_svcRemuxArgs (cfg : DownloadConfig) :
    ("--remux-video" ∈ svcRemuxArgs cfg ↔
      cfg.audioOnly = false ∧ cfg.extractAudio = false) := by
  cases ha : cfg.audioOnly <;> cases he : cfg.extractAudio <;>
    simp [svcRemuxArgs, ha, he]

/-- The extraction flag never occurs in the remux block. -/
theorem not_extract_in_svcRemuxArgs (cfg : DownloadConfig)
    (hfmt : cfg.format ≠ "--extract-audio") :
    "--extract-audio" ∉ svcRemuxArgs cfg := by
  rw [svcRemuxArgs]
  split
  · intro hm
    rcases List.mem_cons.mp hm with h | hm2
    · exact absurd h (by decide)
    · rw [List.mem_singleton] at hm2
      exact hfmt hm2.symm
  · simp

/-- Neither reserved flag occurs in the subtitle block. -/
theorem not_mem_svcSubtitleArgs (cfg : DownloadConfig) (x : String)
    (h1 : x ≠ "--write-subs") (h2 : x ≠ "--sub-langs")
    (h3 : x ≠ String.intercalate "," cfg.subtitleLanguages) :
    x ∉ svcSubtitleArgs cfg := by
  rw [svcSubtitleArgs]
  split
  · intro hm
    rcases List.mem_cons.mp hm with h | hm2
    · exact h1 h
    · revert hm2
      split
      · intro hm2
        rcases List.mem_cons.mp hm2 with h | hm3
        · exact h2 h
        · rw [List.mem_singleton] at hm3
          exact h3 hm3
      · simp
  · simp

/-- A flag whose second character is `-` never equals a seek argument
`-ss ...`. -/
theorem flag_ne_ss (x : String) (hx : x.data.tail.head? = some '-') (s : String) :
    x ≠ "-ss " ++ s := by
  intro h
  have h2 : ("-ss " ++ s).data.tail.head? = some 's' := rfl
  rw [← h, hx] at h2
  exact absurd h2 (by decide)

/-- A flag whose second character is `-` never equals a seek argument
`-to ...`. -/
theorem flag_ne_to (x : String) (hx : x.data.tail.head? = some '-') (e : String) :
    x ≠ "-to " ++ e := by
  intro h
  have h2 : ("-to " ++ e).data.tail.head? = some 't' := rfl
  rw [← h, hx] at h2
  exact absurd h2 (by decide)

/-- A flag ending in `o` never equals a rendered rate argument `...M`. -/
theorem flag_ne_speedArg (x : String) (hx : x.data.getLast? = some 'o') (s : String) :
    x ≠ s ++ "M" := by
  intro h
  have h2 : (s ++ "M").data.getLast? = some 'M' := by
    rw [string_data_append]
    exact getLast?_append_singleton _ _
  rw [← h, hx] at h2
  exact absurd h2 (by decide)

/-- Neither reserved flag occurs among the time-range arguments of the
service builder. -/
theorem not_mem_svcTimeArgs (cfg : DownloadConfig) (x : String)
    (h1 : x ≠ "--external-downloader") (h2 : x ≠ "ffmpeg")
    (h3 : x ≠ "--external-downloader-args")
    (h4 : ∀ s, x ≠ "-ss " ++ s) (h5 : ∀ e, x ≠ "-to " ++ e) :
    x ∉ svcTimeArgs cfg := by
  rw [svcTimeArgs]
  split
  · intro hm
    simp only [List.mem_append] at hm
    rcases hm with (hm | hm) | hm
    · rcases List.mem_cons.mp hm with h | hm2
      · exact h1 h
      · rw [List.mem_singleton] at hm2
        exact h2 hm2
    · revert hm
      cases cfg.startTime with
      | none => simp
      | some s =>
        intro hm
        dsimp only [] at hm
        by_cases hs : s ≠ ""
        · rw [if_pos hs] at hm
          rcases List.mem_cons.mp hm with h | hm2
          · exact h3 h
          · rw [List.mem_singleton] at hm2
            exact h4 s hm2
        · rw [if_neg hs] at hm
          simp at hm
    · revert hm
      cases cfg.endTime with
      | none => simp
      | some e =>
        intro hm
        dsimp only [] at hm
        by_cases hs : e ≠ ""
        · rw [if_pos hs] at hm
          rcases List.mem_cons.mp hm with h | hm2
          · exact h3 h
          · rw [List.mem_singleton] at hm2
            exact h5 e hm2
        · rw [if_neg hs] at hm
          simp at hm
  · simp

/-- Neither reserved flag occurs among the time-range arguments of the
in-process builder. -/
theorem not_mem_jobTimeArgs (job : DownloadJob) (x : String)
    (h1 : x ≠ "--external-downloader") (h2 : x ≠ "ffmpeg")
    (h3 : x ≠ "--external-downloader-args")
    (h4 : ∀ s, x ≠ "-ss " ++ s) (h5 : ∀ e, x ≠ "-to " ++ e) :
    x ∉ jobTimeArgs job := by
  rw [jobTimeArgs]
  intro hm
  rcases List.mem_append.mp hm with hm | hm
  · revert hm
    cases job.startTime with
    | none => simp
    | some s =>
      intro hm
      dsimp only [] at hm
      by_cases hs : s ≠ ""
      · rw [if_pos hs] at hm
        rcases List.mem_cons.mp hm with h | hm2
        · exact h1 h
        · rcases List.mem_cons.mp hm2 with h | hm3
          · exact h2 h
          · rcases List.mem_cons.mp hm3 with h | hm4
            · exact h3 h
            · rw [List.mem_singleton] at hm4
              exact h4 s hm4
      · rw [if_neg hs] at hm
        simp at hm
  · revert hm
    cases job.endTime with
    | none => simp
    | some e =>
      intro hm
      dsimp only [] at hm
      by_cases hs : e ≠ ""
      · rw [if_pos hs] at hm
        rcases List.mem_append.mp hm with hm2 | hm2
        · revert hm2
          split
          · simp
          · intro hm2
            rcases List.mem_cons.mp hm2 with h | hm3
            · exact h1 h
            · rw [List.mem_singleton] at hm3
              exact h2 hm3
        · rcases List.mem_cons.mp hm2 with h | hm3
          · exact h3 h
          · rw [List.mem_singleton] at hm3
            exact h5 e hm3
      · rw [if_neg hs] at hm
        simp at hm

/-- Neither reserved flag occurs among the playlist-range arguments. -/
theorem not_mem_optNatFlagArgs (flag : String) (v : Option ℕ) (x : String)
    (hxflag : x ≠ flag) (hdash : x.data.head? = some '-') :
    x ∉ optNatFlagArgs flag v := by
  cases v with
  | none => simp [optNatFlagArgs]
  | some n =>
    rw [optNatFlagArgs]
    split
    · intro hm
      rcases List.mem_cons.mp hm with h | hm2
      · exact hxflag h
      · rw [List.mem_singleton] at hm2
        subst hm2
        cases hd : (toString n).data with
        | nil => rw [hd] at hdash; simp at hdash
        | cons c cs =>
          rw [hd] at hdash
          simp at hdash
          have hdig := natToString_digits n c (by rw [hd]; exact List.mem_cons_self _ _)
          rw [hdash] at hdig
          exact absurd hdig (by decide)
    · simp

/-- Neither reserved flag occurs among the rate-limit arguments. -/
theorem not_mem_jobSpeedArgs (job : DownloadJob) (x : String)
    (h1 : x ≠ "--limit-rate") (h2 : ∀ s, x ≠ s ++ "M") : x ∉ jobSpeedArgs job := by
  rw [jobSpeedArgs]
  cases job.speedRepr with
  | none => simp
  | some s =>
    intro hm
    dsimp only [] at hm
    by_cases hs : s ≠ ""
    · rw [if_pos hs] at hm
      rcases List.mem_cons.mp hm with h | hm2
      · exact h1 h
      · rw [List.mem_singleton] at hm2
        exact h2 s hm2
    · rw [if_neg hs] at hm
      simp at hm

/-- Counterpart of `mem_svcExtractAudioArgs` for the in-process builder. -/
theorem mem_jobExtractAudioArgs (job : DownloadJob) :
    ("--extract-audio" ∈ jobExtractAudioArgs job ↔ job.extractAudio = true) := by
  by_cases h : job.extractAudio
  · simp [jobExtractAudioArgs, h]
  · simp [jobExtractAudioArgs, h]

/-- Counterpart of `not_remux_in_svcExtractAudioArgs`. -/
theorem not_remux_in_jobExtractAudioArgs (job : DownloadJob)
    (haf : job.audioFormat ≠ "--remux-video") :
    "--remux-video" ∉ jobExtractAudioArgs job := by
  rw [jobExtractAudioArgs]
  split
  · intro hm
    rcases List.mem_cons.mp hm with h | hm2
    · exact absurd h (by decide)
    · rcases List.mem_cons.mp hm2 with h | hm3
      · exact absurd h (by decide)
      · rw [List.mem_singleton] at hm3
        exact haf hm3.symm
  · simp

/-- Counterpart of `mem_svcRemuxArgs`. -/
theorem mem_jobRemuxArgs (job : DownloadJob) :
    ("--remux-video" ∈ jobRemuxArgs job ↔
      job.audioOnly = false ∧ job.extractAudio = false) := by
  cases ha : job.audioOnly <;> cases he : job.extractAudio <;>
    simp [jobRemuxArgs, ha, he]

/-- Counterpart of `not_extract_in_svcRemuxArgs`. -/
theorem not_extract_in_jobRemuxArgs (job : DownloadJob)
    (hfmt : job.format ≠ "--extract-audio") :
    "--extract-audio" ∉ jobRemuxArgs job := by
  rw [jobRemuxArgs]
  split
  · intro hm
    rcases List.mem_cons.mp hm with h | hm2
    · exact absurd h (by decide)
    · rw [List.mem_singleton] at hm2
      exact hfmt hm2.symm
  · simp

/-- Counterpart of `not_mem_svcSubtitleArgs`. -/
theorem not_mem_jobSubtitleArgs (job : DownloadJob) (x : String)
    (h1 : x ≠ "--write-subs") (h2 : x ≠ "--sub-langs")
    (h3 : x ≠ String.intercalate "," job.subtitleLangs) :
    x ∉ jobSubtitleArgs job := by
  rw [jobSubtitleArgs]
  split
  · intro hm
    rcases List.mem_cons.mp hm with h | hm2
    · exact h1 h
    · revert hm2
      split
      · intro hm2
        rcases List.mem_cons.mp hm2 with h | hm3
        · exact h2 h
        · rw [List.mem_singleton] at hm3
          exact h3 hm3
      · simp
  · simp

/-- The extraction flag occurs in the full service command exactly when
`extract_audio` is set. -/
theorem extract_mem_buildDownloadCommand (cfg : DownloadConfig)
    (hurl : cfg.url ≠ "--extract-audio")
    (hfmt : cfg.format ≠ "--extract-audio")
    (hsl : String.intercalate "," cfg.subtitleLanguages ≠ "--extract-audio") :
    ("--extract-audio" ∈ buildDownloadCommand cfg ↔ cfg.extractAudio = true) := by
  have t0 : "--extract-audio" ∉ ["yt-dlp"] := by decide
  have t1 : "--extract-audio" ∉
      ["-o", cfg.outputDirectory ++ "/" ++ "%(title)s.%(ext)s"] := by
    intro hm
    rcases List.mem_cons.mp hm with h | hm2
    · exact absurd h (by decide)
    · rw [List.mem_singleton] at hm2
      exact tmpl_ne _ _ (by decide) hm2
  have t2 := not_mem_svcFormatArgs cfg "--extract-audio" rfl (by decide)
  have t4 := not_extract_in_svcRemuxArgs cfg hfmt
  have t5 := not_mem_svcSubtitleArgs cfg "--extract-audio" (by decide) (by decide)
    (Ne.symm hsl)
  have t6 : "--extract-audio" ∉
      (if cfg.autoSubtitles = true then ["--write-auto-subs"] else []) :=
    not_mem_ite_lits (by decide)
  have t7 : "--extract-audio" ∉
      (if cfg.includeThumbnail = true then ["--write-thumbnail"] else []) :=
    not_mem_ite_lits (by decide)
  have t8 : "--extract-audio" ∉
      (if cfg.includeMetadata = true then
        ["--write-info-json", "--write-description"] else []) :=
    not_mem_ite_lits (by decide)
  have t9 := not_mem_svcTimeArgs cfg "--extract-audio" (by decide) (by decide)
    (by decide) (flag_ne_ss _ rfl) (flag_ne_to _ rfl)
  have t10 := not_mem_optNatFlagArgs "--playlist-start" cfg.playlistStart
    "--extract-audio" (by decide) rfl
  have t11 := not_mem_optNatFlagArgs "--playlist-end" cfg.playlistEnd
    "--extract-audio" (by decide) rfl
  have t12 : "--extract-audio" ∉ fixedTrailingArgs := by decide
  have t13 : "--extract-audio" ∉ [cfg.url] := by
    intro hm
    rw [List.mem_singleton] at hm
    exact hurl hm.symm
  rw [buildDownloadCommand]
  simp only [List.mem_append, t0, t1, t2, t4, t5, t6, t7, t8, t9, t10, t11, t12, t13,
    or_false, false_or]
  exact mem_svcExtractAudioArgs cfg

/-- The remux flag occurs in the full service command exactly when the job
is neither audio-only nor extracting audio. -/
theorem remux_mem_buildDownloadCommand (cfg : DownloadConfig)
    (hurl : cfg.url ≠ "--remux-video")
    (haf : cfg.audioFormat ≠ "--remux-video")
    (hsl : String.intercalate "," cfg.subtitleLanguages ≠ "--remux-video") :
    ("--remux-video" ∈ buildDownloadCommand cfg ↔
      cfg.audioOnly = false ∧ cfg.extractAudio = false) := by
  have t0 : "--remux-video" ∉ ["yt-dlp"] := by decide
  have t1 : "--remux-video" ∉
      ["-o", cfg.outputDirectory ++ "/" ++ "%(title)s.%(ext)s"] := by
    intro hm
    rcases List.mem_cons.mp hm with h | hm2
    · exact absurd h (by decide)
    · rw [List.mem_singleton] at hm2
      exact tmpl_ne _ _ (by decide) hm2
  have t2 := not_mem_svcFormatArgs cfg "--remux-video" rfl (by decide)
  have t3 := not_remux_in_svcExtractAudioArgs cfg haf
  have t5 := not_mem_svcSubtitleArgs cfg "--remux-video" (by decide) (by decide)
    (Ne.symm hsl)
  have t6 : "--remux-video" ∉
      (if cfg.autoSubtitles = true then ["--write-auto-subs"] else []) :=
    not_mem_ite_lits (by decide)
  have t7 : "--remux-video" ∉
      (if cfg.includeThumbnail = true then ["--write-thumbnail"] else []) :=
    not_mem_ite_lits (by decide)
  have t8 : "--remux-video" ∉
      (if cfg.includeMetadata = true then
        ["--write-info-json", "--write-description"] else []) :=
    not_mem_ite_lits (by decide)
  have t9 := not_mem_svcTimeArgs cfg "--remux-video" (by decide) (by decide)
    (by decide) (flag_ne_ss _ rfl) (flag_ne_to _ rfl)
  have t10 := not_mem_optNatFlagArgs "--playlist-start" cfg.playlistStart
    "--remux-video" (by decide) rfl
  have t11 := not_mem_optNatFlagArgs "--playlist-end" cfg.playlistEnd
    "--remux-video" (by decide) rfl
  have t12 : "--remux-video" ∉ fixedTrailingArgs := by decide
  have t13 : "--remux-video" ∉ [cfg.url] := by
    intro hm
    rw [List.mem_singleton] at hm
    exact hurl hm.symm
  rw [buildDownloadCommand]
  simp only [List.mem_append, t0, t1, t2, t3, t5, t6, t7, t8, t9, t10, t11, t12, t13,
    or_false, false_or]
  exact mem_svcRemuxArgs cfg

/-- The extraction flag occurs in the full in-process command exactly when
`extract_audio` is set. -/
theorem extract_mem_buildCommand (job : DownloadJob)
    (hurl : job.url ≠ "--extract-audio")
    (hfmt : job.format ≠ "--extract-audio")
    (hsl : String.intercalate "," job.subtitleLangs ≠ "--extract-audio") :
    ("--extract-audio" ∈ buildCommand job ↔ job.extractAudio = true) := by
  have t0 : "--extract-audio" ∉ ["yt-dlp"] := by decide
  have t1 : "--extract-audio" ∉
      ["-o", job.outputDir ++ "/" ++ "%(title)s.%(ext)s"] := by
    intro hm
    rcases List.mem_cons.mp hm with h | hm2
    · exact absurd h (by decide)
    · rw [List.mem_singleton] at hm2
      exact tmpl_ne _ _ (by decide) hm2
  have t2 := not_mem_jobFormatArgs job "--extract-audio" rfl (by decide)
  have t4 := not_extract_in_jobRemuxArgs job hfmt
  have t5 := not_mem_jobSubtitleArgs job "--extract-audio" (by decide) (by decide)
    (Ne.symm hsl)
  have t6 : "--extract-audio" ∉
      (if job.autoSubtitles = true then ["--write-auto-subs"] else []) :=
    not_mem_ite_lits (by decide)
  have t7 : "--extract-audio" ∉
      (if job.thumbnail = true then ["--write-thumbnail"] else []) :=
    not_mem_ite_lits (by decide)
  have t8 : "--extract-audio" ∉
      (if job.metadata = true then
        ["--write-info-json", "--write-description"] else []) :=
    not_mem_ite_lits (by decide)
  have t9 := not_mem_jobTimeArgs job "--extract-audio" (by decide) (by decide)
    (by decide) (flag_ne_ss _ rfl) (flag_ne_to _ rfl)
  have t10 := not_mem_optNatFlagArgs "--playlist-start" job.playlistStart
    "--extract-audio" (by decide) rfl
  have t11 := not_mem_optNatFlagArgs "--playlist-end" job.playlistEnd
    "--extract-audio" (by decide) rfl
  have tsp := not_mem_jobSpeedArgs job "--extract-audio" (by decide)
    (flag_ne_speedArg _ (by decide))
  have t12 : "--extract-audio" ∉ fixedTrailingArgs := by decide
  have t13 : "--extract-audio" ∉ [job.url] := by
    intro hm
    rw [List.mem_singleton] at hm
    exact hurl hm.symm
  rw [buildCommand]
  simp only [List.mem_append, t0, t1, t2, t4, t5, t6, t7, t8, t9, t10, t11, tsp, t12,
    t13, or_false, false_or]
  exact mem_jobExtractAudioArgs job

/-- The remux flag occurs in the full in-process command exactly when the
job is neither audio-only nor extracting audio. -/
theorem remux_mem_buildCommand (job : DownloadJob)
    (hurl : job.url ≠ "--remux-video")
    (haf : job.audioFormat ≠ "--remux-video")
    (hsl : String.intercalate "," job.subtitleLangs ≠ "--remux-video") :
    ("--remux-video" ∈ buildCommand job ↔
      job.audioOnly = false ∧ job.extractAudio = false) := by
  have t0 : "--remux-video" ∉ ["yt-dlp"] := by decide
  have t1 : "--remux-video" ∉
      ["-o", job.outputDir ++ "/" ++ "%(title)s.%(ext)s"] := by
    intro hm
    rcases List.mem_cons.mp hm with h | hm2
    · exact absurd h (by decide)
    · rw [List.mem_singleton] at hm2
      exact tmpl_ne _ _ (by decide) hm2
  have t2 := not_mem_jobFormatArgs job "--remux-video" rfl (by decide)
  have t3 := not_remux_in_jobExtractAudioArgs job haf
  have t5 := not_mem_jobSubtitleArgs job "--remux-video" (by decide) (by decide)
    (Ne.symm hsl)
  have t6 : "--remux-video" ∉
      (if job.autoSubtitles = true then ["--write-auto-subs"] else []) :=
    not_mem_ite_lits (by decide)
  have t7 : "--remux-video" ∉
      (if job.thumbnail = true then ["--write-thumbnail"] else []) :=
    not_mem_ite_lits (by decide)
  have t8 : "--remux-video" ∉
      (if job.metadata = true then
        ["--write-info-json", "--write-description"] else []) :=
    not_mem_ite_lits (by decide)
  have t9 := not_mem_jobTimeArgs job "--remux-video" (by decide) (by decide)
    (by decide) (flag_ne_ss _ rfl) (flag_ne_to _ rfl)
  have t10 := not_mem_optNatFlagArgs "--playlist-start" job.playlistStart
    "--remux-video" (by decide) rfl
  have t11 := not_mem_optNatFlagArgs "--playlist-end" job.playlistEnd
    "--remux-video" (by decide) rfl
  have tsp := not_mem_jobSpeedArgs job "--remux-video" (by decide)
    (flag_ne_speedArg _ (by decide))
  have t12 : "--remux-video" ∉ fixedTrailingArgs := by decide
  have t13 : "--remux-video" ∉ [job.url] := by
    intro hm
    rw [List.mem_singleton] at hm
    exact hurl hm.symm
  rw [buildCommand]
  simp only [List.mem_append, t0, t1, t2, t3, t5, t6, t7, t8, t9, t10, t11, tsp, t12,
    t13, or_false, false_or]
  exact mem_jobRemuxArgs job

/-- C6: in both builders, the built argument vector contains
`--extract-audio` (followed by the target codec) exactly when
`extract_audio` is set, contains `--remux-video` exactly when the job is
neither audio-only nor extracting audio, and never contains both flags
together.  The hypotheses only rule out the degenerate configurations whose
free-text fields (URL, formats, joined subtitle languages) are themselves
spelt like one of the two flags. -/
theorem c6_extract_remux_exclusivity (cfg : DownloadConfig) (job : DownloadJob)
    (h1 : cfg.url ≠ "--extract-audio") (h2 : cfg.url ≠ "--remux-video")
    (h3 : cfg.audioFormat ≠ "--remux-video")
    (h4 : cfg.format ≠ "--extract-audio")
    (h5 : String.intercalate "," cfg.subtitleLanguages ≠ "--extract-audio")
    (h6 : String.intercalate "," cfg.subtitleLanguages ≠ "--remux-video")
    (h7 : job.url ≠ "--extract-audio") (h8 : job.url ≠ "--remux-video")
    (h9 : job.audioFormat ≠ "--remux-video")
    (h10 : job.format ≠ "--extract-audio")
    (h11 : String.intercalate "," job.subtitleLangs ≠ "--extract-audio")
    (h12 : String.intercalate "," job.subtitleLangs ≠ "--remux-video") :
    ("--extract-audio" ∈ buildDownloadCommand cfg ↔ cfg.extractAudio = true) ∧
    ("--remux-video" ∈ buildDownloadCommand cfg ↔
      cfg.audioOnly = false ∧ cfg.extractAudio = false) ∧
    ¬("--extract-audio" ∈ buildDownloadCommand cfg ∧
      "--remux-video" ∈ buildDownloadCommand cfg) ∧
    ("--extract-audio" ∈ buildCommand job ↔ job.extractAudio = true) ∧
    ("--remux-video" ∈ buildCommand job ↔
      job.audioOnly = false ∧ job.extractAudio = false) ∧
    ¬("--extract-audio" ∈ buildCommand job ∧ "--remux-video" ∈ buildCommand job) := by
  have e1 := extract_mem_buildDownloadCommand cfg h1 h4 h5
  have r1 := remux_mem_buildDownloadCommand cfg h2 h3 h6
  have e2 := extract_mem_buildCommand job h7 h10 h11
  have r2 := remux_mem_buildCommand job h8 h9 h12
  refine ⟨e1, r1, ?_, e2, r2, ?_⟩
  · rintro ⟨hx, hy⟩
    rw [e1] at hx
    rw [r1] at hy
    rw [hy.2] at hx
    exact absurd hx (by simp)
  · rintro ⟨hx, hy⟩
    rw [e2] at hx
    rw [r2] at hy
    rw [hy.2] at hx
    exact absurd hx (by simp)

/-- C6 witness (Scenario B defaults): with `extract_audio` unset and
`audio_only` unset, both commands carry the remux flag and not the
extraction flag. -/
theorem c6_extract_remux_witness :
    ("--extract-audio" ∉ buildDownloadCommand demoCfg720) ∧
    ("--remux-video" ∈ buildDownloadCommand demoCfg720) ∧
    ("--remux-video" ∈ buildCommand demoJob720) := by
  have h := c6_extract_remux_exclusivity demoCfg720 demoJob720
    (by decide) (by decide) (by decide) (by decide) (by decide) (by decide)
    (by decide) (by decide) (by decide) (by decide) (by decide) (by decide)
  refine ⟨?_, ?_, ?_⟩
  · intro hm
    exact absurd (h.1.mp hm) (by decide)
  · exact h.2.1.mpr ⟨rfl, rfl⟩
  · exact h.2.2.2.2.1.mpr ⟨rfl, rfl⟩
